import Mathlib

/-!
Shallow embedding of the expense-tool pipeline
(`src/expense_core.py` and `src/rules.py`) together with proofs about it.

Strings are Lean `String`s; Python `dict`s that preserve insertion order are
association lists; Python sets are lists used only through membership; fallible
Python code (code that can raise) is embedded with `Option`.  Python string
comparison is by code point, which we implement on `String.data` so that all
definitions evaluate by kernel reduction.  Unicode-only differences that no
claim depends on (non-ASCII case folding, non-ASCII digits) are noted at the
definition concerned.
-/

namespace Expense


/-! ### Generic helpers: code-point string order, stable insertion sort,
insertion-ordered additive maps -/

/-- Code-point comparison of characters, as Python compares characters. -/

def charLtB (a b : Char) : Bool := a.toNat < b.toNat

/-- Lexicographic strict order on char lists by code point (Python `<` on `str`). -/

def strLtL : List Char → List Char → Bool
  | [], [] => false
  | [], _ :: _ => true
  | _ :: _, [] => false
  | a :: as, b :: bs =>
    if charLtB a b then true else if charLtB b a then false else strLtL as bs

/-- Lexicographic non-strict order on char lists by code point (Python `<=` on `str`). -/

def strLeL : List Char → List Char → Bool
  | [], _ => true
  | _ :: _, [] => false
  | a :: as, b :: bs =>
    if charLtB a b then true else if charLtB b a then false else strLeL as bs

/-- Python `s < t` on strings. -/

def strLtB (s t : String) : Bool := strLtL s.data t.data

/-- Python `s <= t` on strings. -/

def strLeB (s t : String) : Bool := strLeL s.data t.data

/-- Insert into a list sorted by the boolean relation `le`, in front of the first
element `y` with `le x y`.  Used to embed Python's stable `sorted`. -/

def insertOrd (le : α → α → Bool) (x : α) : List α → List α
  | [] => [x]
  | y :: ys => if le x y then x :: y :: ys else y :: insertOrd le x ys

/-- Insertion sort.  When `le` holds on ties, `sortOrd` is the stable sort with
respect to `le`, i.e. it agrees with Python's `sorted`. -/

def sortOrd (le : α → α → Bool) : List α → List α
  | [] => []
  | x :: xs => insertOrd le x (sortOrd le xs)

/-- `updAdd k v m` embeds `m[k] = m.get(k, 0) + v` on an insertion-ordered
Python dict: update in place if the key is present, else append at the end. -/

def updAdd [DecidableEq κ] (k : κ) (v : Int) : List (κ × Int) → List (κ × Int)
  | [] => [(k, v)]
  | (k', v') :: rest =>
    if k = k' then (k', v' + v) :: rest else (k', v') :: updAdd k v rest

/-- Lookup in an association list (Python `dict.get`). -/

def alookup [DecidableEq κ] (k : κ) : List (κ × Int) → Option Int
  | [] => none
  | (k', v') :: rest => if k = k' then some v' else alookup k rest

/-! ### Python string primitives used by the source -/

/-- ASCII whitespace stripped by Python's `str.strip()` (the source data is
ASCII-spaced; other Unicode whitespace is not modelled). -/

def isPySpace (c : Char) : Bool :=
  c = ' ' || c = '\t' || c = '\n' || c = '\r' || c = '\x0b' || c = '\x0c'

/-- Python `str.strip()`. -/

def pyStrip (s : String) : String :=
  String.mk (((s.data.dropWhile isPySpace).reverse.dropWhile isPySpace).reverse)

/-- Python `str.lower()` restricted to ASCII letters (`Char.toLower` lowers
exactly `A`-`Z`); the rows the claims touch are ASCII. -/

def pyLower (s : String) : String := String.mk (s.data.map Char.toLower)

/-- Does the haystack start with the needle? -/

def startsWithL : List Char → List Char → Bool
  | [], _ => true
  | _ :: _, [] => false
  | a :: as, b :: bs => a = b && startsWithL as bs

/-- Substring containment on char lists. -/

def containsSubL (w : List Char) : List Char → Bool
  | [] => w.isEmpty
  | b :: bs => startsWithL w (b :: bs) || containsSubL w bs

/-- Python `w in s` for strings: `w` occurs as a contiguous substring of `s`
(the empty string occurs in every string). -/

def pyInStr (w s : String) : Bool := containsSubL w.data s.data

/-- Python slice `s[:n]` for `n ≥ 0`. -/

def strTake (n : Nat) (s : String) : String := String.mk (s.data.take n)

def digitVal (c : Char) : Nat := c.toNat - '0'.toNat

/-- Digit run with single underscores strictly between digits, continuing an
accumulated value: the grammar Python's `int()` accepts after the first digit. -/

def natDigitsAux (acc : Nat) : List Char → Option Nat
  | [] => some acc
  | '_' :: c :: cs => if c.isDigit then natDigitsAux (acc * 10 + digitVal c) cs else none
  | c :: cs => if c.isDigit then natDigitsAux (acc * 10 + digitVal c) cs else none

/-- A non-empty underscore-grouped digit run, as accepted by Python's `int()`. -/

def natDigits : List Char → Option Nat
  | [] => none
  | c :: cs => if c.isDigit then natDigitsAux (digitVal c) cs else none

/-- Python `int(s)` on a string: optional surrounding whitespace, one optional
sign, then a non-empty digit run (ASCII digits; Python additionally accepts
non-ASCII decimal digits, which the source data never contains).
`none` embeds the `ValueError` raise. -/

def pyInt (s : String) : Option Int :=
  match (pyStrip s).data with
  | '+' :: ds => (natDigits ds).map (fun n => (n : Int))
  | '-' :: ds => (natDigits ds).map (fun n => -(n : Int))
  | ds => (natDigits ds).map (fun n => (n : Int))

/-- `expense_core.parse_amount`: does `int(s)` succeed? -/

def parse_amount (s : String) : Bool := (pyInt s).isSome

/-- Proleptic-Gregorian leap year, as `datetime` uses. -/

def isLeap (y : Nat) : Bool := y % 4 = 0 && (y % 100 ≠ 0 || y % 400 = 0)

def daysInMonth (y m : Nat) : Nat :=
  if m = 2 then (if isLeap y then 29 else 28)
  else if m = 4 || m = 6 || m = 9 || m = 11 then 30 else 31

/-- The month part of `strptime(_, "%Y-%m-%d")`: the `%m` directive matches
`1[0-2]|0[1-9]|[1-9]` greedily (one or two digits); returns the month value and
the unconsumed characters.  The two-digit and one-digit alternatives are
mutually exclusive with the following literal `-`, so no backtracking arises. -/

def parseMonth : List Char → Option (Nat × List Char)
  | m1 :: m2 :: rest =>
    if m1 = '1' && ('0' ≤ m2 && m2 ≤ '2') then some (10 + digitVal m2, rest)
    else if m1 = '0' && ('1' ≤ m2 && m2 ≤ '9') then some (digitVal m2, rest)
    else if '1' ≤ m1 && m1 ≤ '9' then some (digitVal m1, m2 :: rest)
    else none
  | [m1] => if '1' ≤ m1 && m1 ≤ '9' then some (digitVal m1, []) else none
  | [] => none

/-- The day part of `strptime(_, "%Y-%m-%d")` together with the requirement that
the whole string is consumed: `%d` matches `3[01]|[12][0-9]|0[1-9]|[1-9]` and
`strptime` rejects unconverted trailing data. -/

def parseDay : List Char → Option Nat
  | [d1, d2] =>
    if d1 = '3' && (d2 = '0' || d2 = '1') then some (30 + digitVal d2)
    else if (d1 = '1' || d1 = '2') && d2.isDigit then some (digitVal d1 * 10 + digitVal d2)
    else if d1 = '0' && ('1' ≤ d2 && d2 ≤ '9') then some (digitVal d2)
    else none
  | [d1] => if '1' ≤ d1 && d1 ≤ '9' then some (digitVal d1) else none
  | _ => none

/-- `datetime.strptime(s, "%Y-%m-%d")`: exactly four year digits, dashes,
`%m`/`%d` as above, full consumption, and calendar validity (year within
`datetime`'s 1..9999, day within the month).  Returns the parsed components. -/

def parseYMD (s : String) : Option (Nat × Nat × Nat) :=
  match s.data with
  | y1 :: y2 :: y3 :: y4 :: '-' :: rest =>
    if y1.isDigit && y2.isDigit && y3.isDigit && y4.isDigit then
      let y := ((digitVal y1 * 10 + digitVal y2) * 10 + digitVal y3) * 10 + digitVal y4
      match parseMonth rest with
      | some (m, '-' :: rest2) =>
        match parseDay rest2 with
        | some d => if 1 ≤ y && 1 ≤ d && d ≤ daysInMonth y m then some (y, m, d) else none
        | none => none
      | _ => none
    else none
  | _ => none

/-- `expense_core.parse_date`: is `s` a calendar-valid `%Y-%m-%d` date? -/

def parse_date (s : String) : Bool := (parseYMD s).isSome

/-- `rules._valid_date`: the same `strptime` check (it catches the exception). -/

def validDate (s : String) : Bool := (parseYMD s).isSome

/-- Day of week by Sakamoto's method, 0 = Sunday; agrees with `datetime` on the
proleptic Gregorian calendar for years ≥ 1. -/

def weekdayIdx (y m d : Nat) : Nat :=
  let t := [0, 3, 2, 5, 0, 3, 5, 1, 4, 6, 2, 4]
  let y2 := if m < 3 then y - 1 else y
  (y2 + y2 / 4 - y2 / 100 + y2 / 400 + t.getD (m - 1) 0 + d) % 7

/-- `strftime("%a")` of a parsed date. -/

def weekdayName (s : String) : Option String :=
  (parseYMD s).map (fun p =>
    ["Sun", "Mon", "Tue", "Wed", "Thu", "Fri", "Sat"].getD (weekdayIdx p.1 p.2.1 p.2.2) "Sun")

/-! ### `expense_core.py`: data model and `check_rows` -/

/-- One `csv.DictReader` row restricted to the four required columns
(`REQUIRED_COLUMNS = ["date", "amount", "merchant", "category"]`); other
columns are never consulted.  `none` embeds a missing key (the source's
`col not in r` branch; a key present with value `None` behaves the same in
every observable way, since every read goes through `r.get(col) or ""`). -/

structure RawRow where
  date : Option String
  amount : Option String
  merchant : Option String
  category : Option String
deriving DecidableEq, Repr

/-- `ExpenseRow`: an OK row as produced by `check_rows` (all fields `str`). -/

structure ExpenseRow where
  row : String
  date : String
  amount : String
  merchant : String
  category : String
deriving DecidableEq, Repr

/-- `ExpenseRowNorm`: output of `normalize_ok_rows` (`amount` an `int`). -/

structure ExpenseRowNorm where
  row : String
  date : String
  amount : Int
  merchant : String
  category : String
deriving DecidableEq, Repr

/-- `IssueRow`: an error row with its slash-joined reason string. -/

structure IssueRow where
  row : String
  date : String
  amount : String
  merchant : String
  category : String
  reason : String
deriving DecidableEq, Repr

/-- `r.get(col) or ""` (also covering a present-but-`None` value). -/

def getOrEmpty : Option String → String
  | none => ""
  | some s => s

def missingColMsg (c : String) : String := "列がない: " ++ c

def blankMsg (c : String) : String := "空欄: " ++ c

def dateFmtMsg : String := "日付の形式が違う（YYYY-MM-DD）"

def amountFmtMsg : String := "金額が数字じゃない"

def dupMsg : String := "重複している（date+amount+merchantが同じ）"

/-- Reasons from the required-column loop for a single column. -/

def colReasons (name : String) (v : Option String) : List String :=
  match v with
  | none => [missingColMsg name]
  | some s => if pyStrip s = "" then [blankMsg name] else []

/-- The required-column loop over `REQUIRED_COLUMNS` in source order. -/

def requiredReasons (r : RawRow) : List String :=
  colReasons "date" r.date ++ colReasons "amount" r.amount ++
    colReasons "merchant" r.merchant ++ colReasons "category" r.category

/-- `(date_k, amount_k, merchant_k)` of the duplicate check. -/

abbrev DupKey := String × String × String

def dupKeyOf (r : RawRow) : DupKey :=
  (pyStrip (getOrEmpty r.date), pyStrip (getOrEmpty r.amount),
    pyLower (pyStrip (getOrEmpty r.merchant)))

/-- `date_k and amount_k and merchant_k`: all three key parts non-blank. -/

def keyOk (r : RawRow) : Bool :=
  (dupKeyOf r).1 ≠ "" && (dupKeyOf r).2.1 ≠ "" && (dupKeyOf r).2.2 ≠ ""

/-- All reasons accumulated for one row given the duplicate-keys seen so far,
in source order: required columns, date format, amount format, duplicate. -/

def rowReasons (seen : List DupKey) (r : RawRow) : List String :=
  let d := pyStrip (getOrEmpty r.date)
  let a := pyStrip (getOrEmpty r.amount)
  requiredReasons r ++
    (if d ≠ "" && !(parse_date d) then [dateFmtMsg] else []) ++
    (if a ≠ "" && !(parse_amount a) then [amountFmtMsg] else []) ++
    (if keyOk r && decide (dupKeyOf r ∈ seen) then [dupMsg] else [])

/-- How one row updates the `seen` set (a list used only through membership):
inserted exactly when the three key fields are non-blank and the key is new —
independent of whether the row accumulated any other reason. -/

def dupStep (seen : List DupKey) (r : RawRow) : List DupKey :=
  if keyOk r && !(decide (dupKeyOf r ∈ seen)) then dupKeyOf r :: seen else seen

/-- `seen` after a whole prefix of rows. -/

def dupSeen (seen : List DupKey) (rows : List RawRow) : List DupKey :=
  rows.foldl dupStep seen

/-- The OK record built from row `idx` (all four fields stripped). -/

def okRowOf (idx : Nat) (r : RawRow) : ExpenseRow :=
  { row := toString idx
    date := pyStrip (getOrEmpty r.date)
    amount := pyStrip (getOrEmpty r.amount)
    merchant := pyStrip (getOrEmpty r.merchant)
    category := pyStrip (getOrEmpty r.category) }

/-- The error record built from row `idx` (raw fields, slash-joined reasons). -/

def issueRowOf (idx : Nat) (r : RawRow) (reasons : List String) : IssueRow :=
  { row := toString idx
    date := getOrEmpty r.date
    amount := getOrEmpty r.amount
    merchant := getOrEmpty r.merchant
    category := getOrEmpty r.category
    reason := String.intercalate " / " reasons }

/-- The `check_rows` loop with its enumeration index and `seen` set. -/

def checkRowsGo (idx : Nat) (seen : List DupKey) :
    List RawRow → List ExpenseRow × List IssueRow
  | [] => ([], [])
  | r :: rs =>
    let reasons := rowReasons seen r
    let rest := checkRowsGo (idx + 1) (dupStep seen r) rs
    if reasons.isEmpty then (okRowOf idx r :: rest.1, rest.2)
    else (rest.1, issueRowOf idx r reasons :: rest.2)

/-- `expense_core.check_rows` (enumeration starts at 2: row 1 is the header). -/

def check_rows (rows : List RawRow) : List ExpenseRow × List IssueRow :=
  checkRowsGo 2 [] rows

/-- One row of `expense_core.normalize_ok_rows`; `none` embeds the
`ValueError` that `int` would raise. -/

def normalizeRow (r : ExpenseRow) : Option ExpenseRowNorm :=
  (pyInt (pyStrip r.amount)).map (fun n =>
    { row := r.row
      date := pyStrip r.date
      amount := n
      merchant := pyStrip r.merchant
      category := pyStrip r.category })

/-- `expense_core.normalize_ok_rows`. -/

def normalize_ok_rows (rows : List ExpenseRow) : Option (List ExpenseRowNorm) :=
  rows.mapM normalizeRow

/-! ### `expense_core.make_summary` -/

/-- A flattened summary line `{"type", "key", "value"}`. -/

structure SummaryEntry where
  type : String
  key : String
  value : String
deriving DecidableEq, Repr

/-- `by_month`: `defaultdict(int)` accumulated in row order (first-encounter
key order), keyed by the date's first seven characters. -/

def byMonthOf (rows : List ExpenseRowNorm) : List (String × Int) :=
  rows.foldl (fun m r => updAdd (strTake 7 r.date) r.amount m) []

/-- `by_category`. -/

def byCategoryOf (rows : List ExpenseRowNorm) : List (String × Int) :=
  rows.foldl (fun m r => updAdd r.category r.amount m) []

/-- `by_merchant`. -/

def byMerchantOf (rows : List ExpenseRowNorm) : List (String × Int) :=
  rows.foldl (fun m r => updAdd r.merchant r.amount m) []

/-- `by_weekday`; `none` embeds the `strptime` exception on a malformed date,
which aborts `make_summary` as a whole. -/

def byWeekdayOf (rows : List ExpenseRowNorm) : Option (List (String × Int)) :=
  rows.foldlM (fun m r => (weekdayName r.date).map (fun wd => updAdd wd r.amount m)) []

/-- `sorted(d.keys())` — Python ascending string sort. -/

def sortedKeys (m : List (String × Int)) : List String :=
  sortOrd strLeB (m.map Prod.fst)

/-- The `month_total` block: header, then months in ascending key order. -/

def monthSection (m : List (String × Int)) : List SummaryEntry :=
  { type := "month_total", key := "month", value := "total_amount" } ::
    (sortedKeys m).map (fun k =>
      { type := "month_total", key := k, value := toString ((alookup k m).getD 0) })

/-- The `category_total` block. -/

def categorySection (m : List (String × Int)) : List SummaryEntry :=
  { type := "category_total", key := "category", value := "total_amount" } ::
    (sortedKeys m).map (fun k =>
      { type := "category_total", key := k, value := toString ((alookup k m).getD 0) })

/-- Comparison used by `sorted(by_merchant.items(), key=lambda x: x[1],
reverse=True)`: descending by total; `true` on ties, so `sortOrd` with it is
the stable descending sort that Python's `sorted` performs. -/

def merchantLe (a b : String × Int) : Bool := decide (b.2 ≤ a.2)

/-- The `merchant_top` block: header keyed `top_<n>`, then the stable
descending sort of the merchant totals truncated to `n` entries. -/

def merchantTopSection (m : List (String × Int)) (top_n : Nat) : List SummaryEntry :=
  { type := "merchant_top", key := "top_" ++ toString top_n, value := "total_amount" } ::
    ((sortOrd merchantLe m).take top_n).map (fun p =>
      { type := "merchant_top", key := p.1, value := toString p.2 })

def weekdayOrder : List String := ["Mon", "Tue", "Wed", "Thu", "Fri", "Sat", "Sun"]

/-- The `weekday_total` block: fixed Mon→Sun order, present weekdays only. -/

def weekdaySection (m : List (String × Int)) : List SummaryEntry :=
  { type := "weekday_total", key := "weekday", value := "total_amount" } ::
    weekdayOrder.filterMap (fun wd =>
      match alookup wd m with
      | some v => some { type := "weekday_total", key := wd, value := toString v }
      | none => none)

/-- The `stats` block.  `int(mean(..))` and `int(median(..))` truncate the
exact rational value toward zero, which `Int.tdiv` performs (the float detour
of `statistics` is exact at this scale and is not modelled). -/

def statsSection (rows : List ExpenseRowNorm) : List SummaryEntry :=
  let amounts := rows.map (fun r => r.amount)
  { type := "stats", key := "count", value := toString rows.length } ::
    (match amounts with
     | [] => []
     | a :: rest =>
       let n := amounts.length
       let s := amounts.foldl (· + ·) 0
       let sorted := sortOrd (fun x y : Int => decide (x ≤ y)) amounts
       let med : Int :=
         if n % 2 = 1 then sorted.getD (n / 2) 0
         else Int.tdiv (sorted.getD (n / 2 - 1) 0 + sorted.getD (n / 2) 0) 2
       [{ type := "stats", key := "average", value := toString (Int.tdiv s (n : Int)) },
        { type := "stats", key := "median", value := toString med },
        { type := "stats", key := "min", value := toString (rest.foldl min a) },
        { type := "stats", key := "max", value := toString (rest.foldl max a) }])

/-- `expense_core.make_summary`; `none` embeds the `strptime` exception on a
malformed date in some row. -/

def make_summary (rows : List ExpenseRowNorm) (top_n : Nat) : Option (List SummaryEntry) :=
  (byWeekdayOf rows).map (fun bw =>
    monthSection (byMonthOf rows) ++ categorySection (byCategoryOf rows) ++
      merchantTopSection (byMerchantOf rows) top_n ++ weekdaySection bw ++
      statsSection rows)

/-! ### `rules.py`: configuration and `apply_rules` -/

/-- `rules.DateRange`. -/

structure DateRange where
  min : Option String
  max : Option String
deriving DecidableEq, Repr

/-- `rules.Limits`; the per-category dicts become association lists. -/

structure Limits where
  daily_total : Option Int
  monthly_total : Option Int
  category_daily : Option (List (String × Int))
  category_monthly : Option (List (String × Int))
deriving DecidableEq, Repr

/-- `rules.Rules`. -/

structure Rules where
  allowed_categories : Option (List String)
  unknown_category_mode : String
  fallback_category : Option String
  banned_words : Option (List String)
  date_range : DateRange
  limits : Limits
deriving DecidableEq, Repr

/-- The parsed `rules.json` document as `load_rules` reads it: `none` embeds
an absent key (`data.get(..)` returning `None`). -/

structure RulesDoc where
  allowed_categories : Option (List String)
  unknown_category_mode : Option String
  fallback_category : Option String
  banned_words : Option (List String)
  date_range : Option DateRange
  limits : Option Limits
deriving DecidableEq, Repr

/-- `rules.load_rules` on an already-parsed document: the mode is lowered and
normalized to `"warn"` when it is not one of the three known modes; everything
else is passed through (an absent or empty `date_range`/`limits` section
becomes all-`none`). -/

def load_rules (d : RulesDoc) : Rules :=
  let modeRaw := match d.unknown_category_mode with
    | none => "warn"
    | some s => if s = "" then "warn" else s
  let mode0 := pyLower modeRaw
  let mode := if mode0 = "warn" ∨ mode0 = "ignore" ∨ mode0 = "fallback" then mode0 else "warn"
  { allowed_categories := d.allowed_categories
    unknown_category_mode := mode
    fallback_category := d.fallback_category
    banned_words := d.banned_words
    date_range := d.date_range.getD { min := none, max := none }
    limits := d.limits.getD
      { daily_total := none, monthly_total := none
        category_daily := none, category_monthly := none } }

/-- `set(rules.allowed_categories or [])`, used only through membership. -/

def allowedOf (ru : Rules) : List String := ru.allowed_categories.getD []

/-- `rules.banned_words or []`. -/

def bannedOf (ru : Rules) : List String := ru.banned_words.getD []

/-- `fb = rules.fallback_category or "その他"`: `None` and `""` are falsy. -/

def fbOf (ru : Rules) : String :=
  match ru.fallback_category with
  | none => "その他"
  | some s => if s = "" then "その他" else s

/-- `date_min`: the configured lower bound, dropped when empty or not a valid
date. -/

def dateMinOf (ru : Rules) : Option String :=
  match ru.date_range.min with
  | some s => if s ≠ "" && validDate s then some s else none
  | none => none

/-- `date_max`, same normalization. -/

def dateMaxOf (ru : Rules) : Option String :=
  match ru.date_range.max with
  | some s => if s ≠ "" && validDate s then some s else none
  | none => none

/-- `is_unknown = bool(allowed_set) and (category not in allowed_set)`. -/

def isUnknown (ru : Rules) (cat : String) : Bool :=
  !(allowedOf ru).isEmpty && !(decide (cat ∈ allowedOf ru))

/-- The category after the fallback rewrite: the source's `category_for_clean`
and `category_for_limit` (the two locals always receive the same value). -/

def catEff (ru : Rules) (r : ExpenseRowNorm) : String :=
  if isUnknown ru r.category && decide (ru.unknown_category_mode = "fallback")
  then fbOf ru else r.category

/-- A `warnings` record of `apply_rules`. -/

structure Warning where
  kind : String
  row : String
  date : String
  month : String
  category : String
  merchant : String
  amount : String
  message : String
deriving DecidableEq, Repr

/-- `row_id = str(r.get("row") or idx)`: the empty string is falsy. -/

def rowIdOf (idx : Nat) (r : ExpenseRowNorm) : String :=
  if r.row = "" then toString idx else r.row

/-- The unknown-category check of one row: no warning under `ignore`, a
warning carrying the original category under `fallback` and `warn`. -/

def catWarnOf (ru : Rules) (idx : Nat) (r : ExpenseRowNorm) : List Warning :=
  if isUnknown ru r.category then
    if ru.unknown_category_mode = "ignore" then []
    else if ru.unknown_category_mode = "fallback" then
      [{ kind := "category_unknown", row := rowIdOf idx r, date := r.date
         month := strTake 7 r.date, category := r.category, merchant := r.merchant
         amount := toString r.amount
         message := "未登録カテゴリのため " ++ fbOf ru ++ " 扱い: " ++ r.category }]
    else
      [{ kind := "category_unknown", row := rowIdOf idx r, date := r.date
         month := strTake 7 r.date, category := r.category, merchant := r.merchant
         amount := toString r.amount
         message := "未登録カテゴリ: " ++ r.category }]
  else []

/-- The banned-word scan: the first non-empty configured word contained in the
merchant name (`if w and (w in merchant): ...; break`). -/

def firstBanned (ws : List String) (merchant : String) : Option String :=
  match ws with
  | [] => none
  | w :: rest => if w ≠ "" && pyInStr w merchant then some w else firstBanned rest merchant

/-- The banned-word warning of one row (at most one; category is the
post-fallback category). -/

def bannedWarnOf (ru : Rules) (idx : Nat) (r : ExpenseRowNorm) : List Warning :=
  match firstBanned (bannedOf ru) r.merchant with
  | some w =>
    [{ kind := "banned_word", row := rowIdOf idx r, date := r.date
       month := strTake 7 r.date, category := catEff ru r, merchant := r.merchant
       amount := toString r.amount, message := "禁止ワードを含む: " ++ w }]
  | none => []

/-- The two independent date-range checks of one row (string comparison). -/

def dateWarnsOf (ru : Rules) (idx : Nat) (r : ExpenseRowNorm) : List Warning :=
  (match dateMinOf ru with
   | some dmin =>
     if strLtB r.date dmin then
       [{ kind := "date_range", row := rowIdOf idx r, date := r.date
          month := strTake 7 r.date, category := catEff ru r, merchant := r.merchant
          amount := toString r.amount, message := "日付が範囲外（min=" ++ dmin ++ "）" }]
     else []
   | none => []) ++
  (match dateMaxOf ru with
   | some dmax =>
     if strLtB dmax r.date then
       [{ kind := "date_range", row := rowIdOf idx r, date := r.date
          month := strTake 7 r.date, category := catEff ru r, merchant := r.merchant
          amount := toString r.amount, message := "日付が範囲外（max=" ++ dmax ++ "）" }]
     else []
   | none => [])

/-- All row-scoped warnings of one row, in emission order. -/

def perRowWarn (ru : Rules) (idx : Nat) (r : ExpenseRowNorm) : List Warning :=
  catWarnOf ru idx r ++ bannedWarnOf ru idx r ++ dateWarnsOf ru idx r

/-- `r2 = dict(r); r2["category"] = category_for_clean`. -/

def cleanRowOf (ru : Rules) (r : ExpenseRowNorm) : ExpenseRowNorm :=
  { r with category := catEff ru r }

/-- The mutable state of pass 1 of `apply_rules`. -/

structure Pass1State where
  warnings : List Warning
  clean : List ExpenseRowNorm
  by_day_total : List (String × Int)
  by_month_total : List (String × Int)
  by_day_cat : List ((String × String) × Int)
  by_month_cat : List ((String × String) × Int)
deriving Repr

/-- One iteration of the pass-1 loop. -/

def pass1Step (ru : Rules) (idx : Nat) (r : ExpenseRowNorm) (st : Pass1State) : Pass1State :=
  { warnings := st.warnings ++ perRowWarn ru idx r
    clean := st.clean ++ [cleanRowOf ru r]
    by_day_total := updAdd r.date r.amount st.by_day_total
    by_month_total := updAdd (strTake 7 r.date) r.amount st.by_month_total
    by_day_cat := updAdd (r.date, catEff ru r) r.amount st.by_day_cat
    by_month_cat := updAdd (strTake 7 r.date, catEff ru r) r.amount st.by_month_cat }

/-- The pass-1 loop (`enumerate(rows, start=2)`). -/

def pass1 (ru : Rules) : Nat → Pass1State → List ExpenseRowNorm → Pass1State
  | _, st, [] => st
  | idx, st, r :: rs => pass1 ru (idx + 1) (pass1Step ru idx r st) rs

/-- Python `<=` on `(str, int)` dict items (tuple order); since dict keys are
unique, ties can only be the same item. -/

def itemLeSI (a b : String × Int) : Bool :=
  strLtB a.1 b.1 || (decide (a.1 = b.1) && decide (a.2 ≤ b.2))

/-- Python `<` on `(str, str)` tuples. -/

def pairLtB (x y : String × String) : Bool :=
  strLtB x.1 y.1 || (decide (x.1 = y.1) && strLtB x.2 y.2)

/-- Python `<=` on `((str, str), int)` dict items. -/

def itemLePair (a b : (String × String) × Int) : Bool :=
  pairLtB a.1 b.1 || (decide (a.1 = b.1) && decide (a.2 ≤ b.2))

/-- The daily-total limit block of pass 2: entries of the accumulated map in
ascending key order, one warning per entry strictly over the limit. -/

def limitDailyWarns (ru : Rules) (m : List (String × Int)) : List Warning :=
  match ru.limits.daily_total with
  | none => []
  | some lim =>
    (sortOrd itemLeSI m).filterMap (fun p =>
      if lim < p.2 then
        some { kind := "limit_daily_total", row := "", date := p.1
               month := strTake 7 p.1, category := "", merchant := ""
               amount := toString p.2
               message := "日次合計が上限超え: " ++ toString p.2 ++ " > " ++ toString lim }
      else none)

/-- The monthly-total limit block of pass 2. -/

def limitMonthlyWarns (ru : Rules) (m : List (String × Int)) : List Warning :=
  match ru.limits.monthly_total with
  | none => []
  | some lim =>
    (sortOrd itemLeSI m).filterMap (fun p =>
      if lim < p.2 then
        some { kind := "limit_monthly_total", row := "", date := ""
               month := p.1, category := "", merchant := ""
               amount := toString p.2
               message := "月次合計が上限超え: " ++ toString p.2 ++ " > " ++ toString lim }
      else none)

/-- The per-category daily limit block: a category absent from the configured
map is never checked.  (The source guard `if lim.category_daily:` also skips
an empty dict, which yields no warnings either way.) -/

def limitCatDailyWarns (ru : Rules) (m : List ((String × String) × Int)) : List Warning :=
  match ru.limits.category_daily with
  | none => []
  | some cm =>
    (sortOrd itemLePair m).filterMap (fun p =>
      match alookup p.1.2 cm with
      | some lv =>
        if lv < p.2 then
          some { kind := "limit_category_daily", row := "", date := p.1.1
                 month := strTake 7 p.1.1, category := p.1.2, merchant := ""
                 amount := toString p.2
                 message := "カテゴリ日次合計が上限超え: " ++ p.1.2 ++ " " ++
                   toString p.2 ++ " > " ++ toString lv }
        else none
      | none => none)

/-- The per-category monthly limit block. -/

def limitCatMonthlyWarns (ru : Rules) (m : List ((String × String) × Int)) : List Warning :=
  match ru.limits.category_monthly with
  | none => []
  | some cm =>
    (sortOrd itemLePair m).filterMap (fun p =>
      match alookup p.1.2 cm with
      | some lv =>
        if lv < p.2 then
          some { kind := "limit_category_monthly", row := "", date := ""
                 month := p.1.1, category := p.1.2, merchant := ""
                 amount := toString p.2
                 message := "カテゴリ月次合計が上限超え: " ++ p.1.2 ++ " " ++
                   toString p.2 ++ " > " ++ toString lv }
        else none
      | none => none)

/-- Python `<=` on `(str, str)` tuples. -/

def pairLeB (x y : String × String) : Bool := pairLtB x y || decide (x = y)

/-- The empty pass-1 state. -/

def emptyState : Pass1State :=
  { warnings := [], clean := [], by_day_total := [], by_month_total := []
    by_day_cat := [], by_month_cat := [] }

/-- `rules.apply_rules`: pass 1 over the rows, then the four limit blocks. -/

def apply_rules (rows : List ExpenseRowNorm) (ru : Rules) :
    List ExpenseRowNorm × List Warning :=
  let st := pass1 ru 2 emptyState rows
  (st.clean,
    st.warnings ++ limitDailyWarns ru st.by_day_total ++
      limitMonthlyWarns ru st.by_month_total ++
      limitCatDailyWarns ru st.by_day_cat ++
      limitCatMonthlyWarns ru st.by_month_cat)

/-! ### Derived closed forms used to state and prove the claims -/

/-- All row-scoped warnings of a run, row by row in order. -/
def rowWarns (ru : Rules) : Nat → List ExpenseRowNorm → List Warning
  | _, [] => []
  | idx, r :: rs => perRowWarn ru idx r ++ rowWarns ru (idx + 1) rs

/-- The final `by_day_total` accumulator of a run. -/
def dayTotalsOf (rows : List ExpenseRowNorm) : List (String × Int) :=
  rows.foldl (fun m r => updAdd r.date r.amount m) []

/-- The final `by_month_total` accumulator of a run. -/
def monthTotalsOf (rows : List ExpenseRowNorm) : List (String × Int) :=
  rows.foldl (fun m r => updAdd (strTake 7 r.date) r.amount m) []

/-- The final `by_day_cat` accumulator of a run: keyed by
`(date, category_for_limit)`, i.e. the post-fallback category. -/
def dayCatOf (ru : Rules) (rows : List ExpenseRowNorm) : List ((String × String) × Int) :=
  rows.foldl (fun m r => updAdd (r.date, catEff ru r) r.amount m) []

/-- The final `by_month_cat` accumulator of a run. -/
def monthCatOf (ru : Rules) (rows : List ExpenseRowNorm) : List ((String × String) × Int) :=
  rows.foldl (fun m r => updAdd (strTake 7 r.date, catEff ru r) r.amount m) []

/-- Enumerate a list with positions starting at `i`. -/
def enumF (i : Nat) : List α → List (Nat × α)
  | [] => []
  | x :: xs => (i, x) :: enumF (i + 1) xs

/-- The order the spec describes for the merchant top-N list, on
position-tagged entries: strictly larger total first, ties by smaller
first-encounter position. -/
def merchantLexLe (a b : Nat × (String × Int)) : Bool :=
  decide (b.2.2 < a.2.2) || (decide (a.2.2 = b.2.2) && decide (a.1 ≤ b.1))

/-- Modelled from the spec's words: merchant totals "descending by total,
ties broken by first-encountered insertion order" — sort the position-tagged
entries by `merchantLexLe` and forget the positions. -/
def merchantTopSpec (m : List (String × Int)) : List (String × Int) :=
  (sortOrd merchantLexLe (enumF 0 m)).map Prod.snd

/-- The kinds a row-scoped warning can have. -/
def rowKinds : List String := ["category_unknown", "banned_word", "date_range"]

/-! ### Concrete fixtures used by witnesses and counterexamples -/

/-- A structurally valid raw row. -/
def rawAcme : RawRow :=
  { date := some "2026-01-10", amount := some "1200", merchant := some "Acme"
    category := some "Food" }

/-- The same purchase with the merchant upper-cased (duplicate key). -/
def rawAcmeUpper : RawRow :=
  { date := some "2026-01-10", amount := some "1200", merchant := some "ACME"
    category := some "Food" }

/-- An all-default rules value (everything unrestricted). -/
def ruNone : Rules :=
  { allowed_categories := none, unknown_category_mode := "warn"
    fallback_category := none, banned_words := none
    date_range := { min := none, max := none }
    limits := { daily_total := none, monthly_total := none
                category_daily := none, category_monthly := none } }

/-- Allowed `["Food"]`, mode `fallback`, fallback `"Other"`. -/
def ruFallback : Rules :=
  { allowed_categories := some ["Food"], unknown_category_mode := "fallback"
    fallback_category := some "Other", banned_words := none
    date_range := { min := none, max := none }
    limits := { daily_total := none, monthly_total := none
                category_daily := none, category_monthly := none } }

/-- Allowed `["Food"]`, mode `fallback`, fallback key absent. -/
def ruFallbackNoFb : Rules :=
  { allowed_categories := some ["Food"], unknown_category_mode := "fallback"
    fallback_category := none, banned_words := none
    date_range := { min := none, max := none }
    limits := { daily_total := none, monthly_total := none
                category_daily := none, category_monthly := none } }

/-- Rules with only `limits.daily_total = 1000` configured. -/
def ruDaily1000 : Rules :=
  { allowed_categories := none, unknown_category_mode := "warn"
    fallback_category := none, banned_words := none
    date_range := { min := none, max := none }
    limits := { daily_total := some 1000, monthly_total := none
                category_daily := none, category_monthly := none } }

/-- Rules whose banned-word list is the singleton empty string. -/
def ruBannedEmpty : Rules :=
  { allowed_categories := none, unknown_category_mode := "warn"
    fallback_category := none, banned_words := some [""]
    date_range := { min := none, max := none }
    limits := { daily_total := none, monthly_total := none
                category_daily := none, category_monthly := none } }

/-- Rules with two banned words. -/
def ruBannedXY : Rules :=
  { allowed_categories := none, unknown_category_mode := "warn"
    fallback_category := none, banned_words := some ["bar", "pub"]
    date_range := { min := none, max := none }
    limits := { daily_total := none, monthly_total := none
                category_daily := none, category_monthly := none } }

/-- A normalized row with an unknown category. -/
def rowTravel : ExpenseRowNorm :=
  { row := "2", date := "2026-01-10", amount := 100, merchant := "Acme"
    category := "Travel" }

/-- A normalized row with a known category. -/
def rowFood : ExpenseRowNorm :=
  { row := "2", date := "2026-01-10", amount := 700, merchant := "Acme"
    category := "Food" }

/-- A second normalized row on the same date. -/
def rowFood2 : ExpenseRowNorm :=
  { row := "3", date := "2026-01-10", amount := 500, merchant := "Bistro"
    category := "Food" }

/-- A rules document with no keys set. -/
def docEmpty : RulesDoc :=
  { allowed_categories := none, unknown_category_mode := none
    fallback_category := none, banned_words := none, date_range := none
    limits := none }

/-- A rules document with an unrecognized mode value. -/
def docBadMode : RulesDoc :=
  { allowed_categories := none, unknown_category_mode := some "STRICT"
    fallback_category := none, banned_words := none, date_range := none
    limits := none }

/-- A rules document selecting fallback mode without a fallback category. -/
def docFallbackNoFb : RulesDoc :=
  { allowed_categories := some ["Food"], unknown_category_mode := some "fallback"
    fallback_category := none, banned_words := none, date_range := none
    limits := none }

/-- A raw row with a negative amount literal. -/
def rawNeg : RawRow :=
  { date := some "2026-01-10", amount := some "-100", merchant := some "Acme"
    category := some "Food" }

/-- The validated form of `rawNeg`. -/
def okNeg : ExpenseRow :=
  { row := "2", date := "2026-01-10", amount := "-100", merchant := "Acme"
    category := "Food" }

/-- The normalized form of `rawNeg`. -/
def negRow : ExpenseRowNorm :=
  { row := "2", date := "2026-01-10", amount := -100, merchant := "Acme"
    category := "Food" }

/-- A normalized row whose merchant contains both banned words of `ruBannedXY`. -/
def rowPubBar : ExpenseRowNorm :=
  { row := "2", date := "2026-01-10", amount := 700, merchant := "pub bar"
    category := "Food" }

/-- Two rows with tied merchant totals, merchant `"B"` encountered first. -/
def rowTieB : ExpenseRowNorm :=
  { row := "2", date := "2026-01-10", amount := 300, merchant := "B"
    category := "Food" }

/-- The tie partner of `rowTieB`, merchant `"A"` encountered second. -/
def rowTieA : ExpenseRowNorm :=
  { row := "3", date := "2026-01-10", amount := 300, merchant := "A"
    category := "Food" }

/-! ### Theorems -/

theorem strLeL_cons_lt {a b : Char} (h : a.toNat < b.toNat) (as bs : List Char) :
    strLeL (a :: as) (b :: bs) = true := by
  simp [strLeL, charLtB, h]

theorem strLeL_cons_gt {a b : Char} (h : b.toNat < a.toNat) (as bs : List Char) :
    strLeL (a :: as) (b :: bs) = false := by
  have h' : ¬ a.toNat < b.toNat := by omega
  simp [strLeL, charLtB, h, h']

theorem strLeL_cons_toNat_eq {a b : Char} (h : a.toNat = b.toNat) (as bs : List Char) :
    strLeL (a :: as) (b :: bs) = strLeL as bs := by
  have h1 : ¬ a.toNat < b.toNat := by omega
  have h2 : ¬ b.toNat < a.toNat := by omega
  simp [strLeL, charLtB, h1, h2]

theorem strLeL_total : ∀ as bs : List Char, strLeL as bs || strLeL bs as
  | [], [] => by simp [strLeL]
  | [], _ :: _ => by simp [strLeL]
  | _ :: _, [] => by simp [strLeL]
  | a :: as, b :: bs => by
    rcases Nat.lt_trichotomy a.toNat b.toNat with h | h | h
    · simp [strLeL_cons_lt h]
    · simpa [strLeL_cons_toNat_eq h, strLeL_cons_toNat_eq h.symm] using strLeL_total as bs
    · simp [strLeL_cons_lt h]

theorem strLeL_trans : ∀ as bs cs : List Char,
    strLeL as bs = true → strLeL bs cs = true → strLeL as cs = true
  | [], _, _ => by intros; simp [strLeL]
  | _ :: _, [], _ => by intro h _; simp [strLeL] at h
  | _ :: _, _ :: _, [] => by intro _ h; simp [strLeL] at h
  | a :: as, b :: bs, c :: cs => by
    intro h1 h2
    rcases Nat.lt_trichotomy a.toNat b.toNat with hab | hab | hab
    · rcases Nat.lt_trichotomy b.toNat c.toNat with hbc | hbc | hbc
      · exact strLeL_cons_lt (Nat.lt_trans hab hbc) as cs
      · exact strLeL_cons_lt (hbc ▸ hab) as cs
      · rw [strLeL_cons_gt hbc] at h2
        exact absurd h2 (by simp)
    · rcases Nat.lt_trichotomy b.toNat c.toNat with hbc | hbc | hbc
      · exact strLeL_cons_lt (hab ▸ hbc) as cs
      · rw [strLeL_cons_toNat_eq (hab.trans hbc)]
        rw [strLeL_cons_toNat_eq hab] at h1
        rw [strLeL_cons_toNat_eq hbc] at h2
        exact strLeL_trans as bs cs h1 h2
      · rw [strLeL_cons_gt hbc] at h2
        exact absurd h2 (by simp)
    · rw [strLeL_cons_gt hab] at h1
      exact absurd h1 (by simp)

theorem strLeB_total (s t : String) : strLeB s t || strLeB t s :=
  strLeL_total s.data t.data

theorem strLeB_trans {s t u : String} (h1 : strLeB s t = true) (h2 : strLeB t u = true) :
    strLeB s u = true :=
  strLeL_trans s.data t.data u.data h1 h2

theorem strLtL_cons_lt {a b : Char} (h : a.toNat < b.toNat) (as bs : List Char) :
    strLtL (a :: as) (b :: bs) = true := by
  simp [strLtL, charLtB, h]

theorem strLtL_cons_gt {a b : Char} (h : b.toNat < a.toNat) (as bs : List Char) :
    strLtL (a :: as) (b :: bs) = false := by
  have h' : ¬ a.toNat < b.toNat := by omega
  simp [strLtL, charLtB, h, h']

theorem strLtL_cons_toNat_eq {a b : Char} (h : a.toNat = b.toNat) (as bs : List Char) :
    strLtL (a :: as) (b :: bs) = strLtL as bs := by
  have h1 : ¬ a.toNat < b.toNat := by omega
  have h2 : ¬ b.toNat < a.toNat := by omega
  simp [strLtL, charLtB, h1, h2]

theorem strLtL_both_false_eq : ∀ as bs : List Char,
    strLtL as bs = false → strLtL bs as = false → as = bs
  | [], [], _, _ => rfl
  | [], _ :: _, h, _ => by simp [strLtL] at h
  | _ :: _, [], _, h => by simp [strLtL] at h
  | a :: as, b :: bs, h1, h2 => by
    rcases Nat.lt_trichotomy a.toNat b.toNat with h | h | h
    · rw [strLtL_cons_lt h] at h1
      exact absurd h1 (by simp)
    · have hab : a = b := by
        apply Char.eq_of_val_eq
        apply UInt32.toNat.inj
        exact h
      subst hab
      rw [strLtL_cons_toNat_eq rfl] at h1 h2
      rw [strLtL_both_false_eq as bs h1 h2]
    · rw [strLtL_cons_lt h] at h2
      exact absurd h2 (by simp)

theorem strLtL_imp_strLeL : ∀ as bs : List Char, strLtL as bs = true → strLeL as bs = true
  | [], _, _ => by simp [strLeL]
  | _ :: _, [], h => by simp [strLtL] at h
  | a :: as, b :: bs, h => by
    rcases Nat.lt_trichotomy a.toNat b.toNat with h0 | h0 | h0
    · exact strLeL_cons_lt h0 as bs
    · rw [strLtL_cons_toNat_eq h0] at h
      rw [strLeL_cons_toNat_eq h0]
      exact strLtL_imp_strLeL as bs h
    · rw [strLtL_cons_gt h0] at h
      exact absurd h (by simp)

theorem strLeL_refl : ∀ as : List Char, strLeL as as = true
  | [] => by simp [strLeL]
  | a :: as => by rw [strLeL_cons_toNat_eq rfl]; exact strLeL_refl as

theorem strLtB_both_false_eq {s t : String} (h1 : strLtB s t = false)
    (h2 : strLtB t s = false) : s = t := by
  cases s with
  | mk sd =>
    cases t with
    | mk td =>
      have := strLtL_both_false_eq sd td h1 h2
      simp [this]

theorem strLtB_imp_strLeB {s t : String} (h : strLtB s t = true) : strLeB s t = true :=
  strLtL_imp_strLeL s.data t.data h

theorem strLeB_refl (s : String) : strLeB s s = true := strLeL_refl s.data

theorem mem_insertOrd {le : α → α → Bool} {x a : α} :
    ∀ {l : List α}, a ∈ insertOrd le x l ↔ a = x ∨ a ∈ l
  | [] => by simp [insertOrd]
  | y :: ys => by
    cases h : le x y with
    | true => simp [insertOrd, h]
    | false =>
      simp only [insertOrd, h, Bool.false_eq_true, if_false, List.mem_cons,
        mem_insertOrd (l := ys)]
      tauto

theorem mem_sortOrd {le : α → α → Bool} {a : α} :
    ∀ {l : List α}, a ∈ sortOrd le l ↔ a ∈ l
  | [] => by simp [sortOrd]
  | x :: xs => by
    simp [sortOrd, mem_insertOrd, mem_sortOrd (l := xs)]

theorem countP_insertOrd (le : α → α → Bool) (p : α → Bool) (x : α) :
    ∀ l : List α, (insertOrd le x l).countP p = l.countP p + (if p x then 1 else 0)
  | [] => by simp [insertOrd, List.countP_cons]
  | y :: ys => by
    cases h : le x y with
    | true =>
      simp [insertOrd, h, List.countP_cons]
    | false =>
      simp only [insertOrd, h, Bool.false_eq_true, if_false, List.countP_cons,
        countP_insertOrd le p x ys]
      omega

theorem countP_sortOrd (le : α → α → Bool) (p : α → Bool) :
    ∀ l : List α, (sortOrd le l).countP p = l.countP p
  | [] => by simp [sortOrd]
  | x :: xs => by
    simp [sortOrd, countP_insertOrd, countP_sortOrd le p xs, List.countP_cons]

theorem pairwise_insertOrd {le : α → α → Bool}
    (total : ∀ a b, le a b || le b a) (trans : ∀ a b c, le a b → le b c → le a c)
    (x : α) : ∀ {l : List α}, l.Pairwise (fun a b => le a b = true) →
    (insertOrd le x l).Pairwise (fun a b => le a b = true)
  | [], _ => by simp [insertOrd]
  | y :: ys, h => by
    rcases List.pairwise_cons.mp h with ⟨hy, hys⟩
    cases hxy : le x y with
    | true =>
      simp only [insertOrd, hxy, if_true]
      refine List.pairwise_cons.mpr ⟨?_, h⟩
      intro b hb
      rcases List.mem_cons.mp hb with rfl | hb
      · exact hxy
      · exact trans x y b hxy (hy b hb)
    | false =>
      have hyx : le y x = true := by
        simpa [hxy] using total x y
      simp only [insertOrd, hxy, Bool.false_eq_true, if_false]
      refine List.pairwise_cons.mpr ⟨?_, pairwise_insertOrd total trans x hys⟩
      intro b hb
      rcases mem_insertOrd.mp hb with rfl | hb
      · exact hyx
      · exact hy b hb

theorem pairwise_sortOrd {le : α → α → Bool}
    (total : ∀ a b, le a b || le b a) (trans : ∀ a b c, le a b → le b c → le a c) :
    ∀ l : List α, (sortOrd le l).Pairwise (fun a b => le a b = true)
  | [] => by simp [sortOrd]
  | x :: xs => pairwise_insertOrd total trans x (pairwise_sortOrd total trans xs)

theorem alookup_updAdd_self [DecidableEq κ] (k : κ) (v : Int) :
    ∀ m : List (κ × Int), alookup k (updAdd k v m) = some (((alookup k m).getD 0) + v)
  | [] => by simp [updAdd, alookup]
  | (k', v') :: rest => by
    by_cases h : k = k'
    · subst h
      simp [updAdd, alookup]
    · simp [updAdd, alookup, h, alookup_updAdd_self k v rest]

theorem alookup_updAdd_ne [DecidableEq κ] {k k' : κ} (h : k' ≠ k) (v : Int) :
    ∀ m : List (κ × Int), alookup k' (updAdd k v m) = alookup k' m
  | [] => by simp [updAdd, alookup, h]
  | (k0, v0) :: rest => by
    by_cases h0 : k = k0
    · subst h0
      simp [updAdd, alookup, h]
    · simp only [updAdd, h0, if_false]
      by_cases h1 : k' = k0
      · simp [alookup, h1]
      · simp [alookup, h1, alookup_updAdd_ne h v rest]

theorem mem_updAdd_cases [DecidableEq κ] {k : κ} {v : Int} {p : κ × Int} :
    ∀ {m : List (κ × Int)}, p ∈ updAdd k v m → p.1 = k ∨ p ∈ m
  | [], h => by
    simp only [updAdd, List.mem_singleton] at h
    subst h
    exact Or.inl rfl
  | (k0, v0) :: rest, h => by
    by_cases h0 : k = k0
    · subst h0
      simp only [updAdd, if_true] at h
      rcases List.mem_cons.mp h with rfl | h
      · exact Or.inl rfl
      · exact Or.inr (List.mem_cons_of_mem _ h)
    · simp only [updAdd, h0, if_false] at h
      rcases List.mem_cons.mp h with rfl | h
      · exact Or.inr (List.mem_cons_self _ _)
      · rcases mem_updAdd_cases h with h1 | h1
        · exact Or.inl h1
        · exact Or.inr (List.mem_cons_of_mem _ h1)

theorem keys_nodup_updAdd [DecidableEq κ] (k : κ) (v : Int) :
    ∀ m : List (κ × Int), (m.map Prod.fst).Nodup → ((updAdd k v m).map Prod.fst).Nodup
  | [], _ => by simp [updAdd]
  | (k', v') :: rest, h => by
    rcases List.pairwise_cons.mp h with ⟨hk, hrest⟩
    by_cases h0 : k = k'
    · subst h0
      simpa [updAdd] using h
    · simp only [updAdd, h0, if_false, List.map_cons, List.nodup_cons]
      constructor
      · intro hmem
        rcases List.mem_map.mp hmem with ⟨p, hp, hfst⟩
        rcases mem_updAdd_cases hp with h1 | h1
        · rw [h1] at hfst
          exact h0 hfst
        · exact hk _ (List.mem_map_of_mem Prod.fst h1) hfst.symm
      · exact keys_nodup_updAdd k v rest hrest

theorem strLtL_trans : ∀ as bs cs : List Char,
    strLtL as bs = true → strLtL bs cs = true → strLtL as cs = true
  | [], [], _, h, _ => by simp [strLtL] at h
  | [], _ :: _, [], _, h => by simp [strLtL] at h
  | [], _ :: _, _ :: _, _, _ => by simp [strLtL]
  | _ :: _, [], _, h, _ => by simp [strLtL] at h
  | _ :: _, _ :: _, [], _, h => by simp [strLtL] at h
  | a :: as, b :: bs, c :: cs, h1, h2 => by
    rcases Nat.lt_trichotomy a.toNat b.toNat with hab | hab | hab
    · rcases Nat.lt_trichotomy b.toNat c.toNat with hbc | hbc | hbc
      · exact strLtL_cons_lt (Nat.lt_trans hab hbc) as cs
      · exact strLtL_cons_lt (hbc ▸ hab) as cs
      · rw [strLtL_cons_gt hbc] at h2
        exact absurd h2 (by simp)
    · rcases Nat.lt_trichotomy b.toNat c.toNat with hbc | hbc | hbc
      · exact strLtL_cons_lt (hab ▸ hbc) as cs
      · rw [strLtL_cons_toNat_eq (hab.trans hbc)]
        rw [strLtL_cons_toNat_eq hab] at h1
        rw [strLtL_cons_toNat_eq hbc] at h2
        exact strLtL_trans as bs cs h1 h2
      · rw [strLtL_cons_gt hbc] at h2
        exact absurd h2 (by simp)
    · rw [strLtL_cons_gt hab] at h1
      exact absurd h1 (by simp)

theorem strLtB_trans {s t u : String} (h1 : strLtB s t = true) (h2 : strLtB t u = true) :
    strLtB s u = true :=
  strLtL_trans s.data t.data u.data h1 h2

theorem itemLeSI_total : ∀ a b : String × Int, itemLeSI a b || itemLeSI b a := by
  intro a b
  cases hab : strLtB a.1 b.1 with
  | true => simp [itemLeSI, hab]
  | false =>
    cases hba : strLtB b.1 a.1 with
    | true => simp [itemLeSI, hba]
    | false =>
      have he : a.1 = b.1 := strLtB_both_false_eq hab hba
      rcases le_total a.2 b.2 with h | h
      · simp [itemLeSI, hab, hba, he, h]
      · simp [itemLeSI, hab, hba, he, h]

theorem itemLeSI_trans : ∀ a b c : String × Int,
    itemLeSI a b → itemLeSI b c → itemLeSI a c := by
  intro a b c h1 h2
  simp only [itemLeSI, Bool.or_eq_true, Bool.and_eq_true, decide_eq_true_eq] at h1 h2 ⊢
  rcases h1 with h1 | ⟨h1e, h1v⟩
  · rcases h2 with h2 | ⟨h2e, _⟩
    · exact Or.inl (strLtB_trans h1 h2)
    · exact Or.inl (h2e ▸ h1)
  · rcases h2 with h2 | ⟨h2e, h2v⟩
    · exact Or.inl (h1e ▸ h2)
    · exact Or.inr ⟨h1e.trans h2e, le_trans h1v h2v⟩

theorem pairLtB_both_false_eq {x y : String × String} (h1 : pairLtB x y = false)
    (h2 : pairLtB y x = false) : x = y := by
  simp only [pairLtB, Bool.or_eq_false_iff, Bool.and_eq_false_iff] at h1 h2
  rcases h1 with ⟨h1a, h1b⟩
  rcases h2 with ⟨h2a, h2b⟩
  have he : x.1 = y.1 := strLtB_both_false_eq h1a h2a
  rcases h1b with h1b | h1b
  · simp [he] at h1b
  · rcases h2b with h2b | h2b
    · simp [he] at h2b
    · have := strLtB_both_false_eq h1b h2b
      exact Prod.ext he this

theorem pairLtB_trans : ∀ x y z : String × String,
    pairLtB x y → pairLtB y z → pairLtB x z := by
  intro x y z h1 h2
  simp only [pairLtB, Bool.or_eq_true, Bool.and_eq_true, decide_eq_true_eq] at h1 h2 ⊢
  rcases h1 with h1 | ⟨h1e, h1v⟩
  · rcases h2 with h2 | ⟨h2e, _⟩
    · exact Or.inl (strLtB_trans h1 h2)
    · exact Or.inl (h2e ▸ h1)
  · rcases h2 with h2 | ⟨h2e, h2v⟩
    · exact Or.inl (h1e ▸ h2)
    · exact Or.inr ⟨h1e.trans h2e, strLtB_trans h1v h2v⟩

theorem itemLePair_total : ∀ a b : (String × String) × Int, itemLePair a b || itemLePair b a := by
  intro a b
  cases hab : pairLtB a.1 b.1 with
  | true => simp [itemLePair, hab]
  | false =>
    cases hba : pairLtB b.1 a.1 with
    | true => simp [itemLePair, hba]
    | false =>
      have he : a.1 = b.1 := pairLtB_both_false_eq hab hba
      rcases le_total a.2 b.2 with h | h
      · simp [itemLePair, hab, hba, he, h]
      · simp [itemLePair, hab, hba, he, h]

theorem itemLePair_trans : ∀ a b c : (String × String) × Int,
    itemLePair a b → itemLePair b c → itemLePair a c := by
  intro a b c h1 h2
  simp only [itemLePair, Bool.or_eq_true, Bool.and_eq_true, decide_eq_true_eq] at h1 h2 ⊢
  rcases h1 with h1 | ⟨h1e, h1v⟩
  · rcases h2 with h2 | ⟨h2e, _⟩
    · exact Or.inl (pairLtB_trans _ _ _ h1 h2)
    · exact Or.inl (h2e ▸ h1)
  · rcases h2 with h2 | ⟨h2e, h2v⟩
    · exact Or.inl (h1e ▸ h2)
    · exact Or.inr ⟨h1e.trans h2e, le_trans h1v h2v⟩

theorem itemLeSI_imp_le {a b : String × Int} (h : itemLeSI a b = true) :
    strLeB a.1 b.1 = true := by
  simp only [itemLeSI, Bool.or_eq_true, Bool.and_eq_true, decide_eq_true_eq] at h
  rcases h with h | ⟨h, _⟩
  · exact strLtB_imp_strLeB h
  · rw [h]
    exact strLeB_refl _

theorem itemLePair_imp_le {a b : (String × String) × Int} (h : itemLePair a b = true) :
    pairLeB a.1 b.1 = true := by
  simp only [itemLePair, Bool.or_eq_true, Bool.and_eq_true, decide_eq_true_eq] at h
  rcases h with h | ⟨h, _⟩
  · simp [pairLeB, h]
  · simp [pairLeB, h]

theorem countP_filterMap_eq {α β : Type _} (f : α → Option β) (p : β → Bool) (g : α → Bool)
    (h : ∀ a, (match f a with | some b => p b | none => false) = g a) :
    ∀ l : List α, (l.filterMap f).countP p = l.countP g
  | [] => by simp
  | a :: l => by
    have ha := h a
    cases hf : f a with
    | none =>
      rw [hf] at ha
      simp only [List.filterMap_cons, hf, List.countP_cons, ← ha]
      simpa using countP_filterMap_eq f p g h l
    | some b =>
      rw [hf] at ha
      simp only [List.filterMap_cons, hf, List.countP_cons, ← ha,
        countP_filterMap_eq f p g h l]

theorem countP_key_zero [DecidableEq κ] (d : κ) (q : Int → Bool) :
    ∀ m : List (κ × Int), d ∉ m.map Prod.fst →
    m.countP (fun p => decide (p.1 = d) && q p.2) = 0
  | [], _ => rfl
  | (k, v) :: rest, h => by
    simp only [List.map_cons, List.mem_cons] at h
    push_neg at h
    have hk : ¬ (k = d) := fun he => h.1 he.symm
    simp only [List.countP_cons, hk, decide_False, Bool.false_and,
      countP_key_zero d q rest h.2]
    simp [hk]

theorem countP_key_eq_alookup [DecidableEq κ] (d : κ) (q : Int → Bool) :
    ∀ m : List (κ × Int), (m.map Prod.fst).Nodup →
    m.countP (fun p => decide (p.1 = d) && q p.2) =
      (match alookup d m with
       | some t => if q t then 1 else 0
       | none => 0)
  | [], _ => rfl
  | (k, v) :: rest, h => by
    rcases List.pairwise_cons.mp h with ⟨hk, hrest⟩
    by_cases he : k = d
    · subst he
      have hz : k ∉ rest.map Prod.fst := by
        intro hmem
        exact hk k hmem rfl
      simp only [List.countP_cons, alookup, if_pos rfl, countP_key_zero k q rest hz]
      by_cases hq : q v
      · simp [hq]
      · simp [hq]
    · have he2 : ¬ (k = d) := he
      have he3 : ¬ (d = k) := fun hh => he hh.symm
      simp only [List.countP_cons, alookup, he2, he3, if_false,
        countP_key_eq_alookup d q rest hrest]
      simp [he2]

theorem keys_nodup_foldl_updAdd [DecidableEq κ] (key : α → κ) (val : α → Int) :
    ∀ (rows : List α) (m : List (κ × Int)), (m.map Prod.fst).Nodup →
    ((rows.foldl (fun m r => updAdd (key r) (val r) m) m).map Prod.fst).Nodup
  | [], _, h => h
  | r :: rs, m, h => by
    simpa using keys_nodup_foldl_updAdd key val rs (updAdd (key r) (val r) m)
      (keys_nodup_updAdd (key r) (val r) m h)

theorem pass1_spec (ru : Rules) : ∀ (rows : List ExpenseRowNorm) (idx : Nat) (st : Pass1State),
    pass1 ru idx st rows =
      { warnings := st.warnings ++ rowWarns ru idx rows
        clean := st.clean ++ rows.map (cleanRowOf ru)
        by_day_total := rows.foldl (fun m r => updAdd r.date r.amount m) st.by_day_total
        by_month_total :=
          rows.foldl (fun m r => updAdd (strTake 7 r.date) r.amount m) st.by_month_total
        by_day_cat :=
          rows.foldl (fun m r => updAdd (r.date, catEff ru r) r.amount m) st.by_day_cat
        by_month_cat :=
          rows.foldl (fun m r => updAdd (strTake 7 r.date, catEff ru r) r.amount m)
            st.by_month_cat }
  | [], idx, st => by simp [pass1, rowWarns]
  | r :: rs, idx, st => by
    rw [pass1, pass1_spec ru rs (idx + 1) (pass1Step ru idx r st)]
    simp [pass1Step, rowWarns, List.append_assoc]

/-- `apply_rules` decomposed: the clean rows are the input rows with the
effective category substituted, and the warnings are the row-scoped warnings
in row order followed by the four limit blocks over the final accumulators. -/
theorem apply_rules_eq (rows : List ExpenseRowNorm) (ru : Rules) :
    apply_rules rows ru =
      (rows.map (cleanRowOf ru),
        rowWarns ru 2 rows ++ limitDailyWarns ru (dayTotalsOf rows) ++
          limitMonthlyWarns ru (monthTotalsOf rows) ++
          limitCatDailyWarns ru (dayCatOf ru rows) ++
          limitCatMonthlyWarns ru (monthCatOf ru rows)) := by
  simp [apply_rules, pass1_spec, emptyState, dayTotalsOf, monthTotalsOf, dayCatOf, monthCatOf]

theorem catWarnOf_kind {ru : Rules} {idx : Nat} {r : ExpenseRowNorm} :
    ∀ w ∈ catWarnOf ru idx r, w.kind = "category_unknown" := by
  intro w h
  unfold catWarnOf at h
  split at h
  · split at h
    · simp at h
    · split at h
      · rw [List.mem_singleton] at h
        subst h
        rfl
      · rw [List.mem_singleton] at h
        subst h
        rfl
  · simp at h

theorem bannedWarnOf_kind {ru : Rules} {idx : Nat} {r : ExpenseRowNorm} :
    ∀ w ∈ bannedWarnOf ru idx r, w.kind = "banned_word" := by
  intro w h
  unfold bannedWarnOf at h
  split at h
  · rw [List.mem_singleton] at h
    subst h
    rfl
  · simp at h

theorem dateWarnsOf_kind {ru : Rules} {idx : Nat} {r : ExpenseRowNorm} :
    ∀ w ∈ dateWarnsOf ru idx r, w.kind = "date_range" := by
  intro w h
  unfold dateWarnsOf at h
  rw [List.mem_append] at h
  rcases h with h | h <;>
  · split at h
    · split at h
      · rw [List.mem_singleton] at h
        subst h
        rfl
      · simp at h
    · simp at h

theorem mem_perRowWarn_kind {ru : Rules} {idx : Nat} {r : ExpenseRowNorm} :
    ∀ w ∈ perRowWarn ru idx r, w.kind ∈ rowKinds := by
  intro w h
  unfold perRowWarn at h
  rw [List.mem_append, List.mem_append] at h
  rcases h with (h | h) | h
  · rw [catWarnOf_kind w h]
    simp [rowKinds]
  · rw [bannedWarnOf_kind w h]
    simp [rowKinds]
  · rw [dateWarnsOf_kind w h]
    simp [rowKinds]

theorem mem_rowWarns_kind {ru : Rules} :
    ∀ (rows : List ExpenseRowNorm) (idx : Nat), ∀ w ∈ rowWarns ru idx rows, w.kind ∈ rowKinds
  | [], _, w, h => by simp [rowWarns] at h
  | r :: rs, idx, w, h => by
    rw [rowWarns, List.mem_append] at h
    rcases h with h | h
    · exact mem_perRowWarn_kind w h
    · exact mem_rowWarns_kind rs (idx + 1) w h

/-- A row-scoped warning never has a `limit_*` kind, so any count of
`limit_*`-kind warnings over the row-scoped block is zero. -/
theorem countP_rowWarns_limit_zero {ru : Rules} (rows : List ExpenseRowNorm) (idx : Nat)
    (p : Warning → Bool) (K : String) (hK : K ∉ rowKinds)
    (hp : ∀ w, p w = true → w.kind = K) :
    (rowWarns ru idx rows).countP p = 0 := by
  rw [List.countP_eq_zero]
  intro w hw hpw
  exact hK (hp w hpw ▸ mem_rowWarns_kind rows idx w hw)

theorem countP_limitDailyWarns {ru : Rules} {L : Int} (hlim : ru.limits.daily_total = some L)
    (m : List (String × Int)) (hnd : (m.map Prod.fst).Nodup) (d : String) :
    (limitDailyWarns ru m).countP
        (fun w => decide (w.kind = "limit_daily_total") && decide (w.date = d)) =
      (match alookup d m with
       | some t => if L < t then 1 else 0
       | none => 0) := by
  unfold limitDailyWarns
  rw [hlim]
  rw [countP_filterMap_eq _ _ (fun p => decide (p.1 = d) && decide (L < p.2)) ?_]
  · rw [countP_sortOrd]
    rw [countP_key_eq_alookup d (fun t => decide (L < t)) m hnd]
    cases alookup d m with
    | none => rfl
    | some t => by_cases h : L < t <;> simp [h]
  · intro p
    by_cases h : L < p.2 <;> simp [h, eq_comm]

theorem countP_limitMonthlyWarns {ru : Rules} {L : Int}
    (hlim : ru.limits.monthly_total = some L)
    (m : List (String × Int)) (hnd : (m.map Prod.fst).Nodup) (mo : String) :
    (limitMonthlyWarns ru m).countP
        (fun w => decide (w.kind = "limit_monthly_total") && decide (w.month = mo)) =
      (match alookup mo m with
       | some t => if L < t then 1 else 0
       | none => 0) := by
  unfold limitMonthlyWarns
  rw [hlim]
  rw [countP_filterMap_eq _ _ (fun p => decide (p.1 = mo) && decide (L < p.2)) ?_]
  · rw [countP_sortOrd]
    rw [countP_key_eq_alookup mo (fun t => decide (L < t)) m hnd]
    cases alookup mo m with
    | none => rfl
    | some t => by_cases h : L < t <;> simp [h]
  · intro p
    by_cases h : L < p.2 <;> simp [h, eq_comm]

theorem countP_limitCatDailyWarns {ru : Rules} {cm : List (String × Int)}
    (hlim : ru.limits.category_daily = some cm)
    (m : List ((String × String) × Int)) (hnd : (m.map Prod.fst).Nodup)
    (dd cc : String) :
    (limitCatDailyWarns ru m).countP
        (fun w => decide (w.kind = "limit_category_daily") &&
          decide ((w.date, w.category) = (dd, cc))) =
      (match alookup (dd, cc) m with
       | some t =>
         (match alookup cc cm with
          | some lv => if lv < t then 1 else 0
          | none => 0)
       | none => 0) := by
  unfold limitCatDailyWarns
  rw [hlim]
  rw [countP_filterMap_eq _ _
    (fun p => decide (p.1 = (dd, cc)) &&
      (match alookup cc cm with
       | some lv => decide (lv < p.2)
       | none => false)) ?_]
  · rw [countP_sortOrd]
    have hq := countP_key_eq_alookup (κ := String × String) (dd, cc)
      (fun t => match alookup cc cm with
                | some lv => decide (lv < t)
                | none => false) m hnd
    simp only [] at hq
    rw [hq]
    cases alookup (dd, cc) m with
    | none => rfl
    | some t =>
      cases hl : alookup cc cm with
      | none => simp [hl]
      | some lv => by_cases h : lv < t <;> simp [hl, h]
  · intro p
    by_cases hp : p.1 = (dd, cc)
    · have hc : p.1.2 = cc := by rw [hp]
      rw [show alookup p.1.2 cm = alookup cc cm from by rw [hc]]
      cases hl : alookup cc cm with
      | none => simp [hp]
      | some lv =>
        by_cases h : lv < p.2
        · simp [h, hp, Prod.mk.eta]
        · simp [h, hp]
    · cases hl : alookup p.1.2 cm with
      | none => simp [hl, hp]
      | some lv =>
        by_cases h : lv < p.2
        · have hne : ((p.1.1, p.1.2) : String × String) ≠ (dd, cc) := by
            rw [Prod.mk.eta]
            exact hp
          simp [hl, h, hne, hp]
        · simp [hl, h, hp]

theorem countP_limitCatMonthlyWarns {ru : Rules} {cm : List (String × Int)}
    (hlim : ru.limits.category_monthly = some cm)
    (m : List ((String × String) × Int)) (hnd : (m.map Prod.fst).Nodup)
    (mo cc : String) :
    (limitCatMonthlyWarns ru m).countP
        (fun w => decide (w.kind = "limit_category_monthly") &&
          decide ((w.month, w.category) = (mo, cc))) =
      (match alookup (mo, cc) m with
       | some t =>
         (match alookup cc cm with
          | some lv => if lv < t then 1 else 0
          | none => 0)
       | none => 0) := by
  unfold limitCatMonthlyWarns
  rw [hlim]
  rw [countP_filterMap_eq _ _
    (fun p => decide (p.1 = (mo, cc)) &&
      (match alookup cc cm with
       | some lv => decide (lv < p.2)
       | none => false)) ?_]
  · rw [countP_sortOrd]
    have hq := countP_key_eq_alookup (κ := String × String) (mo, cc)
      (fun t => match alookup cc cm with
                | some lv => decide (lv < t)
                | none => false) m hnd
    simp only [] at hq
    rw [hq]
    cases alookup (mo, cc) m with
    | none => rfl
    | some t =>
      cases hl : alookup cc cm with
      | none => simp [hl]
      | some lv => by_cases h : lv < t <;> simp [hl, h]
  · intro p
    by_cases hp : p.1 = (mo, cc)
    · have hc : p.1.2 = cc := by rw [hp]
      rw [show alookup p.1.2 cm = alookup cc cm from by rw [hc]]
      cases hl : alookup cc cm with
      | none => simp [hp]
      | some lv =>
        by_cases h : lv < p.2
        · simp [h, hp, Prod.mk.eta]
        · simp [h, hp]
    · cases hl : alookup p.1.2 cm with
      | none => simp [hl, hp]
      | some lv =>
        by_cases h : lv < p.2
        · have hne : ((p.1.1, p.1.2) : String × String) ≠ (mo, cc) := by
            rw [Prod.mk.eta]
            exact hp
          simp [hl, h, hne, hp]
        · simp [hl, h, hp]

theorem limitDailyWarns_sorted (ru : Rules) (m : List (String × Int)) :
    (limitDailyWarns ru m).Pairwise (fun w1 w2 => strLeB w1.date w2.date = true) := by
  unfold limitDailyWarns
  cases ru.limits.daily_total with
  | none => simp
  | some lim =>
    rw [List.pairwise_filterMap]
    apply (pairwise_sortOrd itemLeSI_total itemLeSI_trans m).imp
    intro a b hab w1 hw1 w2 hw2
    have h1 : w1.date = a.1 := by
      by_cases h : lim < a.2 <;> simp [h] at hw1 <;> simp [← hw1]
    have h2 : w2.date = b.1 := by
      by_cases h : lim < b.2 <;> simp [h] at hw2 <;> simp [← hw2]
    rw [h1, h2]
    exact itemLeSI_imp_le hab

theorem limitMonthlyWarns_sorted (ru : Rules) (m : List (String × Int)) :
    (limitMonthlyWarns ru m).Pairwise (fun w1 w2 => strLeB w1.month w2.month = true) := by
  unfold limitMonthlyWarns
  cases ru.limits.monthly_total with
  | none => simp
  | some lim =>
    rw [List.pairwise_filterMap]
    apply (pairwise_sortOrd itemLeSI_total itemLeSI_trans m).imp
    intro a b hab w1 hw1 w2 hw2
    have h1 : w1.month = a.1 := by
      by_cases h : lim < a.2 <;> simp [h] at hw1 <;> simp [← hw1]
    have h2 : w2.month = b.1 := by
      by_cases h : lim < b.2 <;> simp [h] at hw2 <;> simp [← hw2]
    rw [h1, h2]
    exact itemLeSI_imp_le hab

theorem limitCatDailyWarns_sorted (ru : Rules) (m : List ((String × String) × Int)) :
    (limitCatDailyWarns ru m).Pairwise
      (fun w1 w2 => pairLeB (w1.date, w1.category) (w2.date, w2.category) = true) := by
  unfold limitCatDailyWarns
  cases ru.limits.category_daily with
  | none => simp
  | some cm =>
    rw [List.pairwise_filterMap]
    apply (pairwise_sortOrd itemLePair_total itemLePair_trans m).imp
    intro a b hab w1 hw1 w2 hw2
    have h1 : (w1.date, w1.category) = a.1 := by
      cases hl : alookup a.1.2 cm with
      | none => simp [hl] at hw1
      | some lv =>
        by_cases h : lv < a.2 <;> simp [hl, h] at hw1 <;> simp [← hw1]
    have h2 : (w2.date, w2.category) = b.1 := by
      cases hl : alookup b.1.2 cm with
      | none => simp [hl] at hw2
      | some lv =>
        by_cases h : lv < b.2 <;> simp [hl, h] at hw2 <;> simp [← hw2]
    rw [h1, h2]
    exact itemLePair_imp_le hab

theorem limitCatMonthlyWarns_sorted (ru : Rules) (m : List ((String × String) × Int)) :
    (limitCatMonthlyWarns ru m).Pairwise
      (fun w1 w2 => pairLeB (w1.month, w1.category) (w2.month, w2.category) = true) := by
  unfold limitCatMonthlyWarns
  cases ru.limits.category_monthly with
  | none => simp
  | some cm =>
    rw [List.pairwise_filterMap]
    apply (pairwise_sortOrd itemLePair_total itemLePair_trans m).imp
    intro a b hab w1 hw1 w2 hw2
    have h1 : (w1.month, w1.category) = a.1 := by
      cases hl : alookup a.1.2 cm with
      | none => simp [hl] at hw1
      | some lv =>
        by_cases h : lv < a.2 <;> simp [hl, h] at hw1 <;> simp [← hw1]
    have h2 : (w2.month, w2.category) = b.1 := by
      cases hl : alookup b.1.2 cm with
      | none => simp [hl] at hw2
      | some lv =>
        by_cases h : lv < b.2 <;> simp [hl, h] at hw2 <;> simp [← hw2]
    rw [h1, h2]
    exact itemLePair_imp_le hab

theorem mem_enumF {p : Nat × α} : ∀ (l : List α) (k : Nat), p ∈ enumF k l → k ≤ p.1
  | [], _, h => by simp [enumF] at h
  | x :: xs, k, h => by
    rw [enumF, List.mem_cons] at h
    rcases h with rfl | h
    · exact le_refl k
    · exact Nat.le_of_succ_le (mem_enumF xs (k + 1) h)

theorem merchantLexLe_eq_merchantLe {k j : Nat} (hkj : k ≤ j) (x y : String × Int) :
    merchantLexLe (k, x) (j, y) = merchantLe x y := by
  simp only [merchantLexLe, merchantLe, hkj, decide_True, Bool.and_true]
  rcases lt_trichotomy y.2 x.2 with h | h | h
  · simp [h, le_of_lt h]
  · simp [h, le_of_eq h.symm]
  · have h1 : ¬ y.2 < x.2 := by omega
    have h2 : ¬ x.2 = y.2 := by omega
    have h3 : ¬ y.2 ≤ x.2 := by omega
    simp [h1, h2, h3]

theorem map_snd_insertOrd_lex (k : Nat) (x : String × Int) :
    ∀ L : List (Nat × (String × Int)), (∀ q ∈ L, k < q.1) →
    (insertOrd merchantLexLe (k, x) L).map Prod.snd =
      insertOrd merchantLe x (L.map Prod.snd)
  | [], _ => by simp [insertOrd]
  | (j, y) :: L, h => by
    have hkj : k ≤ j := le_of_lt (h (j, y) (List.mem_cons_self _ _))
    simp only [insertOrd, List.map_cons, merchantLexLe_eq_merchantLe hkj]
    cases hle : merchantLe x y with
    | true => simp
    | false =>
      simp only [Bool.false_eq_true, if_false, List.map_cons]
      rw [map_snd_insertOrd_lex k x L (fun q hq => h q (List.mem_cons_of_mem _ hq))]

theorem sortOrd_enumF_snd : ∀ (l : List (String × Int)) (k : Nat),
    (sortOrd merchantLexLe (enumF k l)).map Prod.snd = sortOrd merchantLe l
  | [], _ => rfl
  | x :: xs, k => by
    have hidx : ∀ q ∈ sortOrd merchantLexLe (enumF (k + 1) xs), k < q.1 := by
      intro q hq
      have h1 := mem_enumF xs (k + 1) (mem_sortOrd.mp hq)
      omega
    rw [enumF, sortOrd, sortOrd]
    rw [map_snd_insertOrd_lex k x _ hidx, sortOrd_enumF_snd xs (k + 1)]

/-- Python's stable descending sort of the merchant totals coincides with the
spec's description: sort by total descending with ties broken by
first-encounter position. -/
theorem merchantTopSpec_eq (m : List (String × Int)) :
    merchantTopSpec m = sortOrd merchantLe m :=
  sortOrd_enumF_snd m 0

theorem mem_dupStep {k : DupKey} {seen : List DupKey} {r : RawRow} :
    k ∈ dupStep seen r ↔ k ∈ seen ∨ (keyOk r = true ∧ dupKeyOf r = k) := by
  unfold dupStep
  cases hok : keyOk r with
  | false => simp [hok]
  | true =>
    cases hmem : decide (dupKeyOf r ∈ seen) with
    | true =>
      have hm : dupKeyOf r ∈ seen := of_decide_eq_true hmem
      simp only [hok, hmem, Bool.not_true, Bool.and_false, Bool.false_eq_true, if_false]
      constructor
      · exact Or.inl
      · rintro (h | ⟨-, rfl⟩)
        · exact h
        · exact hm
    | false =>
      simp only [hok, hmem, Bool.not_false, Bool.and_true, if_true, List.mem_cons]
      constructor
      · rintro (rfl | h)
        · exact Or.inr (by simp)
        · exact Or.inl h
      · rintro (h | ⟨-, rfl⟩)
        · exact Or.inr h
        · exact Or.inl rfl

theorem mem_dupSeen {k : DupKey} : ∀ (rows : List RawRow) (seen : List DupKey),
    k ∈ dupSeen seen rows ↔ k ∈ seen ∨ ∃ r ∈ rows, keyOk r = true ∧ dupKeyOf r = k
  | [], seen => by simp [dupSeen]
  | r :: rs, seen => by
    have h0 : dupSeen seen (r :: rs) = dupSeen (dupStep seen r) rs := rfl
    rw [h0, mem_dupSeen rs (dupStep seen r), mem_dupStep]
    simp only [List.mem_cons]
    constructor
    · rintro ((h | h) | ⟨x, hx, hp⟩)
      · exact Or.inl h
      · exact Or.inr ⟨r, Or.inl rfl, h⟩
      · exact Or.inr ⟨x, Or.inr hx, hp⟩
    · rintro (h | ⟨x, hx | hx, hp⟩)
      · exact Or.inl (Or.inl h)
      · subst hx
        exact Or.inl (Or.inr hp)
      · exact Or.inr ⟨x, hx, hp⟩

theorem checkRowsGo_append : ∀ (xs ys : List RawRow) (idx : Nat) (seen : List DupKey),
    checkRowsGo idx seen (xs ++ ys) =
      ((checkRowsGo idx seen xs).1 ++
        (checkRowsGo (idx + xs.length) (dupSeen seen xs) ys).1,
       (checkRowsGo idx seen xs).2 ++
        (checkRowsGo (idx + xs.length) (dupSeen seen xs) ys).2)
  | [], ys, idx, seen => by simp [checkRowsGo, dupSeen]
  | x :: xs, ys, idx, seen => by
    have hrec := checkRowsGo_append xs ys (idx + 1) (dupStep seen x)
    have hlen : idx + 1 + xs.length = idx + (x :: xs).length := by
      simp [List.length_cons]
      omega
    have hseen : dupSeen (dupStep seen x) xs = dupSeen seen (x :: xs) := rfl
    rw [List.cons_append]
    show (let reasons := rowReasons seen x
          let rest := checkRowsGo (idx + 1) (dupStep seen x) (xs ++ ys)
          if reasons.isEmpty then (okRowOf idx x :: rest.1, rest.2)
          else (rest.1, issueRowOf idx x reasons :: rest.2)) = _
    rw [hrec]
    show (if (rowReasons seen x).isEmpty then _ else _) = _
    rw [hlen, hseen]
    cases hre : (rowReasons seen x).isEmpty with
    | true =>
      simp only [if_true]
      show (okRowOf idx x :: _, _) = _
      have hgo : checkRowsGo idx seen (x :: xs) =
          (okRowOf idx x :: (checkRowsGo (idx + 1) (dupStep seen x) xs).1,
           (checkRowsGo (idx + 1) (dupStep seen x) xs).2) := by
        show (let reasons := rowReasons seen x
              let rest := checkRowsGo (idx + 1) (dupStep seen x) xs
              if reasons.isEmpty then (okRowOf idx x :: rest.1, rest.2)
              else (rest.1, issueRowOf idx x reasons :: rest.2)) = _
        simp only [hre, if_true]
      rw [hgo]
      simp
    | false =>
      simp only [Bool.false_eq_true, if_false]
      have hgo : checkRowsGo idx seen (x :: xs) =
          ((checkRowsGo (idx + 1) (dupStep seen x) xs).1,
           issueRowOf idx x (rowReasons seen x) ::
             (checkRowsGo (idx + 1) (dupStep seen x) xs).2) := by
        show (let reasons := rowReasons seen x
              let rest := checkRowsGo (idx + 1) (dupStep seen x) xs
              if reasons.isEmpty then (okRowOf idx x :: rest.1, rest.2)
              else (rest.1, issueRowOf idx x reasons :: rest.2)) = _
        simp only [hre, Bool.false_eq_true, if_false]
      rw [hgo]
      simp

theorem dupMsg_not_mem_colReasons {v : Option String} {n : String}
    (h1 : dupMsg ≠ missingColMsg n) (h2 : dupMsg ≠ blankMsg n) :
    dupMsg ∉ colReasons n v := by
  cases v with
  | none => simp [colReasons, h1]
  | some s =>
    by_cases hs : pyStrip s = ""
    · simp [colReasons, hs, h2]
    · simp [colReasons, hs]

theorem dupMsg_not_mem_requiredReasons (r : RawRow) : dupMsg ∉ requiredReasons r := by
  unfold requiredReasons
  simp only [List.mem_append]
  rintro (((h | h) | h) | h)
  · exact dupMsg_not_mem_colReasons (by decide) (by decide) h
  · exact dupMsg_not_mem_colReasons (by decide) (by decide) h
  · exact dupMsg_not_mem_colReasons (by decide) (by decide) h
  · exact dupMsg_not_mem_colReasons (by decide) (by decide) h

theorem dupMsg_mem_rowReasons {seen : List DupKey} {r : RawRow} :
    dupMsg ∈ rowReasons seen r ↔ (keyOk r = true ∧ dupKeyOf r ∈ seen) := by
  unfold rowReasons
  simp only [List.mem_append]
  constructor
  · rintro (((h | h) | h) | h)
    · exact absurd h (dupMsg_not_mem_requiredReasons r)
    · revert h
      split
      · intro h
        rw [List.mem_singleton] at h
        exact absurd h (by decide)
      · simp
    · revert h
      split
      · intro h
        rw [List.mem_singleton] at h
        exact absurd h (by decide)
      · simp
    · revert h
      by_cases hc : (keyOk r && decide (dupKeyOf r ∈ seen)) = true
      · intro _
        have hc2 : keyOk r = true ∧ decide (dupKeyOf r ∈ seen) = true := by
          simpa using hc
        exact ⟨hc2.1, of_decide_eq_true hc2.2⟩
      · simp [hc]
  · rintro ⟨h1, h2⟩
    right
    simp [h1, h2]

theorem dropWhile_head_not (p : α → Bool) :
    ∀ (l : List α) (c : α), (l.dropWhile p).head? = some c → p c = false
  | [], c, h => by simp at h
  | a :: l, c, h => by
    by_cases ha : p a
    · rw [List.dropWhile_cons, if_pos ha] at h
      exact dropWhile_head_not p l c h
    · rw [List.dropWhile_cons, if_neg ha] at h
      simp only [List.head?_cons, Option.some_inj] at h
      subst h
      simpa using ha

theorem dropWhile_eq_self_of_head (p : α → Bool) :
    ∀ l : List α, (∀ c, l.head? = some c → p c = false) → l.dropWhile p = l
  | [], _ => by simp
  | a :: l, h => by
    have ha := h a rfl
    rw [List.dropWhile_cons, if_neg (by simp [ha])]

theorem reverse_dropWhile_decomp (p : α → Bool) (l : List α) :
    l = (l.reverse.dropWhile p).reverse ++ (l.reverse.takeWhile p).reverse := by
  conv_lhs => rw [← l.reverse_reverse]
  rw [← List.reverse_append, List.takeWhile_append_dropWhile]

theorem pyStrip_idem (s : String) : pyStrip (pyStrip s) = pyStrip s := by
  have h1 : (((s.data.dropWhile isPySpace).reverse.dropWhile
      isPySpace).reverse).dropWhile isPySpace =
      ((s.data.dropWhile isPySpace).reverse.dropWhile isPySpace).reverse := by
    apply dropWhile_eq_self_of_head
    intro c hc
    apply dropWhile_head_not isPySpace s.data c
    rw [reverse_dropWhile_decomp isPySpace (s.data.dropWhile isPySpace)]
    cases hrev : ((s.data.dropWhile isPySpace).reverse.dropWhile isPySpace).reverse with
    | nil => rw [hrev] at hc; simp at hc
    | cons x t =>
      rw [hrev] at hc
      simp only [List.head?_cons, Option.some_inj] at hc
      subst hc
      simp
  have h2 : ((s.data.dropWhile isPySpace).reverse.dropWhile isPySpace).dropWhile
      isPySpace = (s.data.dropWhile isPySpace).reverse.dropWhile isPySpace := by
    apply dropWhile_eq_self_of_head
    intro c hc
    exact dropWhile_head_not isPySpace (s.data.dropWhile isPySpace).reverse c hc
  show String.mk (((((((s.data.dropWhile isPySpace).reverse.dropWhile
      isPySpace).reverse).dropWhile isPySpace).reverse).dropWhile isPySpace).reverse) =
    String.mk (((s.data.dropWhile isPySpace).reverse.dropWhile isPySpace).reverse)
  rw [h1, List.reverse_reverse, h2]

theorem pyInt_pyStrip (s : String) : pyInt (pyStrip s) = pyInt s := by
  unfold pyInt
  rw [pyStrip_idem]

theorem rowReasons_empty_amount {seen : List DupKey} {r : RawRow}
    (h : rowReasons seen r = []) :
    ∃ v, r.amount = some v ∧ pyStrip v ≠ "" ∧ (pyInt (pyStrip v)).isSome = true := by
  unfold rowReasons at h
  simp only [List.append_eq_nil] at h
  obtain ⟨⟨⟨hreq, -⟩, hamt⟩, -⟩ := h
  unfold requiredReasons at hreq
  simp only [List.append_eq_nil] at hreq
  obtain ⟨⟨⟨-, hamtcol⟩, -⟩, -⟩ := hreq
  unfold colReasons at hamtcol
  cases hv : r.amount with
  | none => rw [hv] at hamtcol; simp at hamtcol
  | some v =>
    rw [hv] at hamtcol
    have hne : pyStrip v ≠ "" := by
      intro he
      simp [he] at hamtcol
    refine ⟨v, rfl, hne, ?_⟩
    rw [hv] at hamt
    by_cases hp : (pyInt (pyStrip v)).isSome = true
    · exact hp
    · exfalso
      have : parse_amount (pyStrip v) = false := by
        unfold parse_amount
        simpa using hp
      rw [if_pos (by simp [getOrEmpty, hne, this])] at hamt
      simp at hamt

theorem checkRowsGo_cons (idx : Nat) (seen : List DupKey) (r : RawRow) (rs : List RawRow) :
    checkRowsGo idx seen (r :: rs) =
      (if (rowReasons seen r).isEmpty
       then (okRowOf idx r :: (checkRowsGo (idx + 1) (dupStep seen r) rs).1,
             (checkRowsGo (idx + 1) (dupStep seen r) rs).2)
       else ((checkRowsGo (idx + 1) (dupStep seen r) rs).1,
             issueRowOf idx r (rowReasons seen r) ::
               (checkRowsGo (idx + 1) (dupStep seen r) rs).2)) := rfl

theorem checkRowsGo_ok_amount : ∀ (rows : List RawRow) (idx : Nat) (seen : List DupKey),
    ∀ okr ∈ (checkRowsGo idx seen rows).1, (pyInt okr.amount).isSome = true
  | [], _, _, okr, h => by simp [checkRowsGo] at h
  | r :: rs, idx, seen, okr, h => by
    rw [checkRowsGo_cons] at h
    cases hre : (rowReasons seen r).isEmpty with
    | true =>
      rw [hre, if_pos rfl] at h
      rcases List.mem_cons.mp h with rfl | h
      · obtain ⟨v, hv, -, hsome⟩ :=
          rowReasons_empty_amount (List.isEmpty_iff.mp hre)
        show (pyInt (okRowOf idx r).amount).isSome = true
        unfold okRowOf getOrEmpty
        rw [hv]
        exact hsome
      · exact checkRowsGo_ok_amount rs (idx + 1) (dupStep seen r) okr h
    | false =>
      rw [hre, if_neg (by simp)] at h
      exact checkRowsGo_ok_amount rs (idx + 1) (dupStep seen r) okr h

theorem mapM_normalizeRow_isSome :
    ∀ rows : List ExpenseRow, (∀ r ∈ rows, (normalizeRow r).isSome = true) →
    ∃ out, rows.mapM normalizeRow = some out ∧ out.length = rows.length
  | [], _ => ⟨[], rfl, rfl⟩
  | r :: rs, h => by
    have hr := h r (List.mem_cons_self _ _)
    obtain ⟨nr, hnr⟩ := Option.isSome_iff_exists.mp hr
    obtain ⟨out, hout, hlen⟩ :=
      mapM_normalizeRow_isSome rs (fun x hx => h x (List.mem_cons_of_mem _ hx))
    refine ⟨nr :: out, ?_, by simp [hlen]⟩
    rw [List.mapM_cons, hnr, hout]
    rfl

theorem alookup_of_mem [DecidableEq κ] :
    ∀ {m : List (κ × Int)}, (m.map Prod.fst).Nodup → ∀ {p : κ × Int}, p ∈ m →
    alookup p.1 m = some p.2
  | [], _, p, hp => by simp at hp
  | (k, v) :: rest, hnd, p, hp => by
    rcases List.pairwise_cons.mp hnd with ⟨hk, hrest⟩
    rcases List.mem_cons.mp hp with rfl | hp
    · simp [alookup]
    · have hne : p.1 ≠ k := fun he => hk p.1 (List.mem_map_of_mem Prod.fst hp) he.symm
      simp [alookup, hne, alookup_of_mem hrest hp]

theorem mem_limitDailyWarns_fields {ru : Rules} {m : List (String × Int)} {w : Warning}
    (h : w ∈ limitDailyWarns ru m) :
    w.kind = "limit_daily_total" ∧ w.row = "" ∧ w.merchant = "" ∧
      ∃ p ∈ m, w.date = p.1 ∧ w.amount = toString p.2 := by
  unfold limitDailyWarns at h
  cases hl : ru.limits.daily_total with
  | none => rw [hl] at h; simp at h
  | some lim =>
    rw [hl] at h
    rcases List.mem_filterMap.mp h with ⟨p, hp, hf⟩
    by_cases hc : lim < p.2
    · rw [if_pos hc, Option.some_inj] at hf
      subst hf
      exact ⟨rfl, rfl, rfl, p, mem_sortOrd.mp hp, rfl, rfl⟩
    · rw [if_neg hc] at hf
      simp at hf

theorem mem_limitMonthlyWarns_fields {ru : Rules} {m : List (String × Int)} {w : Warning}
    (h : w ∈ limitMonthlyWarns ru m) :
    w.kind = "limit_monthly_total" ∧ w.row = "" ∧ w.merchant = "" ∧
      ∃ p ∈ m, w.month = p.1 ∧ w.amount = toString p.2 := by
  unfold limitMonthlyWarns at h
  cases hl : ru.limits.monthly_total with
  | none => rw [hl] at h; simp at h
  | some lim =>
    rw [hl] at h
    rcases List.mem_filterMap.mp h with ⟨p, hp, hf⟩
    by_cases hc : lim < p.2
    · rw [if_pos hc, Option.some_inj] at hf
      subst hf
      exact ⟨rfl, rfl, rfl, p, mem_sortOrd.mp hp, rfl, rfl⟩
    · rw [if_neg hc] at hf
      simp at hf

theorem mem_limitCatDailyWarns_fields {ru : Rules} {m : List ((String × String) × Int)}
    {w : Warning} (h : w ∈ limitCatDailyWarns ru m) :
    w.kind = "limit_category_daily" ∧ w.row = "" ∧ w.merchant = "" ∧
      ∃ p ∈ m, w.date = p.1.1 ∧ w.category = p.1.2 ∧ w.amount = toString p.2 := by
  unfold limitCatDailyWarns at h
  split at h
  · simp at h
  · rcases List.mem_filterMap.mp h with ⟨p, hp, hf⟩
    split at hf
    · split at hf
      · rw [Option.some_inj] at hf
        subst hf
        exact ⟨rfl, rfl, rfl, p, mem_sortOrd.mp hp, rfl, rfl, rfl⟩
      · simp at hf
    · simp at hf

theorem mem_limitCatMonthlyWarns_fields {ru : Rules} {m : List ((String × String) × Int)}
    {w : Warning} (h : w ∈ limitCatMonthlyWarns ru m) :
    w.kind = "limit_category_monthly" ∧ w.row = "" ∧ w.merchant = "" ∧
      ∃ p ∈ m, w.month = p.1.1 ∧ w.category = p.1.2 ∧ w.amount = toString p.2 := by
  unfold limitCatMonthlyWarns at h
  split at h
  · simp at h
  · rcases List.mem_filterMap.mp h with ⟨p, hp, hf⟩
    split at hf
    · split at hf
      · rw [Option.some_inj] at hf
        subst hf
        exact ⟨rfl, rfl, rfl, p, mem_sortOrd.mp hp, rfl, rfl, rfl⟩
      · simp at hf
    · simp at hf

theorem firstBanned_eq_head_filter :
    ∀ (ws : List String) (merchant : String),
    firstBanned ws merchant = (ws.filter (fun w => w ≠ "" && pyInStr w merchant)).head?
  | [], _ => rfl
  | w :: rest, merchant => by
    rw [firstBanned, List.filter_cons]
    cases hc : (w ≠ "" && pyInStr w merchant : Bool) with
    | true => simp [hc]
    | false => simp [hc, firstBanned_eq_head_filter rest merchant]

theorem rowWarns_congr {ru1 ru2 : Rules}
    (h : ∀ idx r, perRowWarn ru1 idx r = perRowWarn ru2 idx r) :
    ∀ (rows : List ExpenseRowNorm) (idx : Nat), rowWarns ru1 idx rows = rowWarns ru2 idx rows
  | [], _ => rfl
  | r :: rs, idx => by
    rw [rowWarns, rowWarns, h idx r, rowWarns_congr h rs (idx + 1)]

theorem apply_rules_dr_congr (ru : Rules) (d1 d2 : DateRange)
    (h1 : dateMinOf { ru with date_range := d1 } = dateMinOf { ru with date_range := d2 })
    (h2 : dateMaxOf { ru with date_range := d1 } = dateMaxOf { ru with date_range := d2 })
    (rows : List ExpenseRowNorm) :
    apply_rules rows { ru with date_range := d1 } =
      apply_rules rows { ru with date_range := d2 } := by
  rw [apply_rules_eq, apply_rules_eq]
  have hper : ∀ idx r, perRowWarn { ru with date_range := d1 } idx r =
      perRowWarn { ru with date_range := d2 } idx r := by
    intro idx r
    unfold perRowWarn dateWarnsOf
    rw [h1, h2]
    rfl
  rw [rowWarns_congr hper rows 2]
  rfl

/-- C2, counterexample: with `fallback_category` omitted and a fallback rewrite
triggered (`allowed_categories = ["Food"]`, mode `fallback`, row category
`"Travel"`), the emitted clean record's category is the string `"その他"`, not
`"Other"` as the claim states. -/
theorem claim_C2_counterexample :
    (apply_rules [rowTravel] (load_rules docFallbackNoFb)).1.map
        (fun c => c.category) = ["その他"] ∧
      ¬ (apply_rules [rowTravel] (load_rules docFallbackNoFb)).1.map
        (fun c => c.category) = ["Other"] := by
  decide

/-- C2, amended: when the rule configuration omits `fallback_category`, the
fallback category used for substitution defaults to the string `"その他"`
(the Japanese word for "other"): every row rewritten under `fallback` mode
with no `fallback_category` configured gets clean category `"その他"`. -/
theorem claim_C2 (d : RulesDoc) (hfb : d.fallback_category = none) :
    (load_rules d).fallback_category = none ∧
    fbOf (load_rules d) = "その他" ∧
    (∀ ru : Rules, ru.fallback_category = none → fbOf ru = "その他") ∧
    (∀ (ru : Rules) (r : ExpenseRowNorm), ru.fallback_category = none →
      ru.unknown_category_mode = "fallback" → isUnknown ru r.category = true →
      (cleanRowOf ru r).category = "その他") ∧
    (∀ (ru : Rules) (rows : List ExpenseRowNorm),
      (apply_rules rows ru).1 = rows.map (cleanRowOf ru)) := by
  have hfb2 : (load_rules d).fallback_category = none := by
    unfold load_rules
    exact hfb
  have hfbOf : ∀ ru : Rules, ru.fallback_category = none → fbOf ru = "その他" := by
    intro ru h
    unfold fbOf
    rw [h]
  refine ⟨hfb2, hfbOf _ hfb2, hfbOf, ?_, ?_⟩
  · intro ru r hn hm hu
    have hcat : (cleanRowOf ru r).category = catEff ru r := rfl
    rw [hcat]
    unfold catEff
    rw [if_pos (by simp [hu, hm])]
    exact hfbOf ru hn
  · intro ru rows
    rw [apply_rules_eq]

/-- C2 witness: the amended default applied at a concrete configuration. -/
theorem claim_C2_witness :
    fbOf (load_rules docFallbackNoFb) = "その他" ∧
    (cleanRowOf ruFallbackNoFb rowTravel).category = "その他" :=
  ⟨(claim_C2 docFallbackNoFb rfl).2.1,
   (claim_C2 docFallbackNoFb rfl).2.2.2.1 ruFallbackNoFb rowTravel rfl rfl (by decide)⟩

/-- C6: `normalize_ok_rows` never fails on the OK output of `check_rows`:
every OK row's amount string parses as an integer, the integer conversion
succeeds on every element, and one normalized record is returned per input
record. -/
theorem claim_C6 (rows : List RawRow) :
    (∀ okr ∈ (check_rows rows).1, parse_amount okr.amount = true) ∧
    ∃ out, normalize_ok_rows (check_rows rows).1 = some out ∧
      out.length = (check_rows rows).1.length := by
  constructor
  · intro okr h
    exact checkRowsGo_ok_amount rows 2 [] okr h
  · apply mapM_normalizeRow_isSome
    intro r hr
    have h := checkRowsGo_ok_amount rows 2 [] r hr
    unfold normalizeRow
    rw [pyInt_pyStrip]
    simpa using h

/-- C6 witness at a concrete run. -/
theorem claim_C6_witness :
    parse_amount (okRowOf 2 rawAcme).amount = true ∧
    ∃ out, normalize_ok_rows (check_rows [rawAcme]).1 = some out ∧
      out.length = (check_rows [rawAcme]).1.length :=
  ⟨(claim_C6 [rawAcme]).1 (okRowOf 2 rawAcme) (by decide), (claim_C6 [rawAcme]).2⟩

/-- C7: malformed configuration never aborts: an unrecognized
`unknown_category_mode` is normalized to `"warn"` by `load_rules`, and a
`date_range` bound that is not a calendar-valid `YYYY-MM-DD` string is
treated by `apply_rules` exactly as an absent bound. -/
theorem claim_C7 :
    (∀ d : RulesDoc,
      (load_rules d).unknown_category_mode = "warn" ∨
      (load_rules d).unknown_category_mode = "ignore" ∨
      (load_rules d).unknown_category_mode = "fallback") ∧
    (∀ (d : RulesDoc) (s : String), d.unknown_category_mode = some s →
      pyLower s ∉ (["warn", "ignore", "fallback"] : List String) →
      (load_rules d).unknown_category_mode = "warn") ∧
    (∀ (ru : Rules) (rows : List ExpenseRowNorm) (s : String) (mx : Option String),
      validDate s = false →
      apply_rules rows { ru with date_range := { min := some s, max := mx } } =
        apply_rules rows { ru with date_range := { min := none, max := mx } }) ∧
    (∀ (ru : Rules) (rows : List ExpenseRowNorm) (s : String) (mn : Option String),
      validDate s = false →
      apply_rules rows { ru with date_range := { min := mn, max := some s } } =
        apply_rules rows { ru with date_range := { min := mn, max := none } }) := by
  refine ⟨?_, ?_, ?_, ?_⟩
  · intro d
    simp only [load_rules]
    split
    · next hc => exact hc
    · exact Or.inl rfl
  · intro d s hd hs
    by_cases he : s = ""
    · subst he
      simp only [load_rules, hd]
      decide
    · have hs2 : pyLower s ≠ "warn" ∧ pyLower s ≠ "ignore" ∧ pyLower s ≠ "fallback" := by
        simpa using hs
      simp only [load_rules, hd]
      rw [if_neg he]
      split
      · next hc =>
        exfalso
        rcases hc with hc | hc | hc
        · exact hs2.1 hc
        · exact hs2.2.1 hc
        · exact hs2.2.2 hc
      · rfl
  · intro ru rows s mx hval
    apply apply_rules_dr_congr
    · show dateMinOf _ = dateMinOf _
      unfold dateMinOf
      simp [hval]
    · rfl
  · intro ru rows s mn hval
    apply apply_rules_dr_congr
    · rfl
    · show dateMaxOf _ = dateMaxOf _
      unfold dateMaxOf
      simp [hval]

/-- C7 witness: bad mode and bad date bound at concrete inputs. -/
theorem claim_C7_witness :
    (load_rules docBadMode).unknown_category_mode = "warn" ∧
    apply_rules [rowFood]
        { ruNone with date_range := { min := some "2026-13-40", max := none } } =
      apply_rules [rowFood]
        { ruNone with date_range := { min := none, max := none } } :=
  ⟨claim_C7.2.1 docBadMode "STRICT" rfl (by decide),
   claim_C7.2.2.1 ruNone [rowFood] "2026-13-40" none (by decide)⟩

/-- C9: `apply_rules` returns exactly one clean record per input record, in
order; every field other than `category` is preserved; and the category
changes only under `fallback` mode for a category outside a non-empty allowed
set (in which case it becomes the fallback category). -/
theorem claim_C9 (rows : List ExpenseRowNorm) (ru : Rules) :
    (apply_rules rows ru).1 = rows.map (cleanRowOf ru) ∧
    (apply_rules rows ru).1.length = rows.length ∧
    (∀ r : ExpenseRowNorm,
      (cleanRowOf ru r).row = r.row ∧ (cleanRowOf ru r).date = r.date ∧
      (cleanRowOf ru r).amount = r.amount ∧ (cleanRowOf ru r).merchant = r.merchant) ∧
    (∀ r : ExpenseRowNorm, (cleanRowOf ru r).category ≠ r.category →
      ru.unknown_category_mode = "fallback" ∧ allowedOf ru ≠ [] ∧
        r.category ∉ allowedOf ru ∧ (cleanRowOf ru r).category = fbOf ru) := by
  have he := apply_rules_eq rows ru
  refine ⟨by rw [he], by rw [he]; simp, fun r => ⟨rfl, rfl, rfl, rfl⟩, ?_⟩
  intro r hne
  have hcat : (cleanRowOf ru r).category = catEff ru r := rfl
  rw [hcat] at hne ⊢
  unfold catEff at hne ⊢
  by_cases hc : (isUnknown ru r.category &&
      decide (ru.unknown_category_mode = "fallback")) = true
  · rw [if_pos hc] at hne ⊢
    have hc2 : isUnknown ru r.category = true ∧
        decide (ru.unknown_category_mode = "fallback") = true := by simpa using hc
    have hm := of_decide_eq_true hc2.2
    have hu := hc2.1
    unfold isUnknown at hu
    have hu2 : (allowedOf ru).isEmpty = false ∧ ¬ r.category ∈ allowedOf ru := by
      simpa using hu
    refine ⟨hm, ?_, hu2.2, rfl⟩
    cases hl : allowedOf ru with
    | nil => rw [hl] at hu2; simp at hu2
    | cons a l => simp
  · rw [if_neg hc] at hne
    exact absurd rfl hne

/-- C9 witness at a concrete fallback run. -/
theorem claim_C9_witness :
    (apply_rules [rowTravel] ruFallback).1 = [rowTravel].map (cleanRowOf ruFallback) ∧
    (ruFallback.unknown_category_mode = "fallback" ∧ allowedOf ruFallback ≠ [] ∧
      rowTravel.category ∉ allowedOf ruFallback ∧
      (cleanRowOf ruFallback rowTravel).category = fbOf ruFallback) :=
  ⟨(claim_C9 [rowTravel] ruFallback).1,
   (claim_C9 [rowTravel] ruFallback).2.2.2 rowTravel (by decide)⟩

/-- C10: the amount check accepts any string Python's `int()` accepts,
including signed literals such as `"-100"` and `"+5"`; such a row becomes a
ValidatedRecord, and negative amounts flow through normalization, the limit
accumulators and the summary statistics. -/
theorem claim_C10 :
    parse_amount "-100" = true ∧ parse_amount "+5" = true ∧
    pyInt "-100" = some (-100) ∧ pyInt "+5" = some 5 ∧
    (∀ s : String, parse_amount s = (pyInt s).isSome) ∧
    check_rows [rawNeg] = ([okNeg], []) ∧
    normalize_ok_rows [okNeg] = some [negRow] ∧
    (apply_rules [negRow] ruNone).1 = [negRow] ∧
    alookup "2026-01-10" (dayTotalsOf [negRow]) = some (-100) ∧
    (make_summary [negRow] 10).isSome = true ∧
    ({ type := "stats", key := "min", value := "-100" } : SummaryEntry) ∈
      (make_summary [negRow] 10).getD [] := by
  refine ⟨by decide, by decide, by decide, by decide, fun s => rfl, by decide, by decide,
    by decide, by decide, by decide, by decide⟩

/-- C5, counterexample: with `banned_words = [""]` the empty word occurs as a
substring of every merchant name, yet `apply_rules` emits no `banned_word`
warning — the code skips falsy words, so the claim as stated (a warning on the
first word occurring as a substring) fails. -/
theorem claim_C5_counterexample :
    pyInStr "" rowFood.merchant = true ∧
    (apply_rules [rowFood] ruBannedEmpty).2.countP
      (fun w => decide (w.kind = "banned_word")) = 0 := by
  decide

/-- C5, amended: `apply_rules` scans `banned_words` in configured order and,
on the first non-empty word that occurs as a substring of the merchant name,
emits exactly one `banned_word` warning (whose category is the post-fallback
category) and stops scanning; a row never receives more than one `banned_word`
warning. -/
theorem claim_C5 (ru : Rules) (idx : Nat) (r : ExpenseRowNorm) :
    firstBanned (bannedOf ru) r.merchant =
      ((bannedOf ru).filter (fun w => w ≠ "" && pyInStr w r.merchant)).head? ∧
    (∀ w, firstBanned (bannedOf ru) r.merchant = some w →
      bannedWarnOf ru idx r =
        [{ kind := "banned_word", row := rowIdOf idx r, date := r.date
           month := strTake 7 r.date, category := catEff ru r, merchant := r.merchant
           amount := toString r.amount, message := "禁止ワードを含む: " ++ w }]) ∧
    (firstBanned (bannedOf ru) r.merchant = none → bannedWarnOf ru idx r = []) ∧
    (perRowWarn ru idx r).countP (fun w => decide (w.kind = "banned_word")) ≤ 1 ∧
    (∀ rows, (apply_rules rows ru).2 =
      rowWarns ru 2 rows ++ limitDailyWarns ru (dayTotalsOf rows) ++
        limitMonthlyWarns ru (monthTotalsOf rows) ++
        limitCatDailyWarns ru (dayCatOf ru rows) ++
        limitCatMonthlyWarns ru (monthCatOf ru rows)) := by
  refine ⟨firstBanned_eq_head_filter _ _, ?_, ?_, ?_, ?_⟩
  · intro w hw
    unfold bannedWarnOf
    rw [hw]
  · intro hw
    unfold bannedWarnOf
    rw [hw]
  · unfold perRowWarn
    rw [List.countP_append, List.countP_append]
    have h1 : (catWarnOf ru idx r).countP (fun w => decide (w.kind = "banned_word")) = 0 := by
      rw [List.countP_eq_zero]
      intro w hw
      rw [catWarnOf_kind w hw]
      decide
    have h3 : (dateWarnsOf ru idx r).countP (fun w => decide (w.kind = "banned_word")) = 0 := by
      rw [List.countP_eq_zero]
      intro w hw
      rw [dateWarnsOf_kind w hw]
      decide
    have h2 : (bannedWarnOf ru idx r).countP (fun w => decide (w.kind = "banned_word")) ≤ 1 := by
      refine le_trans (List.countP_le_length _) ?_
      unfold bannedWarnOf
      cases firstBanned (bannedOf ru) r.merchant <;> simp
    omega
  · intro rows
    rw [apply_rules_eq]

/-- C5 witness: with banned words `["bar", "pub"]` and merchant `"pub bar"`,
only the first configured match `"bar"` produces the single warning. -/
theorem claim_C5_witness :
    bannedWarnOf ruBannedXY 2 rowPubBar =
      [{ kind := "banned_word", row := rowIdOf 2 rowPubBar, date := rowPubBar.date
         month := strTake 7 rowPubBar.date, category := catEff ruBannedXY rowPubBar
         merchant := rowPubBar.merchant, amount := toString rowPubBar.amount
         message := "禁止ワードを含む: " ++ "bar" }] ∧
    (perRowWarn ruBannedXY 2 rowPubBar).countP
      (fun w => decide (w.kind = "banned_word")) ≤ 1 :=
  ⟨(claim_C5 ruBannedXY 2 rowPubBar).2.1 "bar" (by decide),
   (claim_C5 ruBannedXY 2 rowPubBar).2.2.2.1⟩

/-- C1: under `fallback` mode with a non-empty allowed set, a row whose
category is not allowed yields exactly one `category_unknown` warning carrying
the original category, is emitted into clean output with the fallback
category, and contributes its amount to the accumulators under the fallback
category. -/
theorem claim_C1 (ru : Rules) (hmode : ru.unknown_category_mode = "fallback")
    (hne : allowedOf ru ≠ []) (r : ExpenseRowNorm) (hcat : r.category ∉ allowedOf ru)
    (idx : Nat) :
    catWarnOf ru idx r =
      [{ kind := "category_unknown", row := rowIdOf idx r, date := r.date
         month := strTake 7 r.date, category := r.category, merchant := r.merchant
         amount := toString r.amount
         message := "未登録カテゴリのため " ++ fbOf ru ++ " 扱い: " ++ r.category }] ∧
    (perRowWarn ru idx r).countP (fun w => decide (w.kind = "category_unknown")) = 1 ∧
    cleanRowOf ru r = { r with category := fbOf ru } ∧
    catEff ru r = fbOf ru ∧
    (∀ m : List ((String × String) × Int),
      updAdd (r.date, catEff ru r) r.amount m = updAdd (r.date, fbOf ru) r.amount m) ∧
    (∀ m : List ((String × String) × Int),
      updAdd (strTake 7 r.date, catEff ru r) r.amount m =
        updAdd (strTake 7 r.date, fbOf ru) r.amount m) ∧
    (∀ rows, (apply_rules rows ru).1 = rows.map (cleanRowOf ru)) ∧
    (∀ rows, dayCatOf ru rows =
      rows.foldl (fun m x => updAdd (x.date, catEff ru x) x.amount m) []) ∧
    (∀ rows, monthCatOf ru rows =
      rows.foldl (fun m x => updAdd (strTake 7 x.date, catEff ru x) x.amount m) []) ∧
    (∀ rows, (apply_rules rows ru).2 =
      rowWarns ru 2 rows ++ limitDailyWarns ru (dayTotalsOf rows) ++
        limitMonthlyWarns ru (monthTotalsOf rows) ++
        limitCatDailyWarns ru (dayCatOf ru rows) ++
        limitCatMonthlyWarns ru (monthCatOf ru rows)) := by
  have h1 : (allowedOf ru).isEmpty = false := by
    cases hl : allowedOf ru with
    | nil => exact absurd hl hne
    | cons a l => rfl
  have h2 : decide (r.category ∈ allowedOf ru) = false := decide_eq_false hcat
  have hu : isUnknown ru r.category = true := by
    simp [isUnknown, h1, h2]
  have hcw : catWarnOf ru idx r =
      [{ kind := "category_unknown", row := rowIdOf idx r, date := r.date
         month := strTake 7 r.date, category := r.category, merchant := r.merchant
         amount := toString r.amount
         message := "未登録カテゴリのため " ++ fbOf ru ++ " 扱い: " ++ r.category }] := by
    unfold catWarnOf
    rw [if_pos hu, hmode, if_neg (by decide), if_pos rfl]
  have heff : catEff ru r = fbOf ru := by
    unfold catEff
    rw [if_pos (by simp [hu, hmode])]
  refine ⟨hcw, ?_, ?_, heff, fun m => by rw [heff], fun m => by rw [heff],
    fun rows => by rw [apply_rules_eq], fun rows => rfl, fun rows => rfl,
    fun rows => by rw [apply_rules_eq]⟩
  · unfold perRowWarn
    rw [List.countP_append, List.countP_append, hcw]
    have hb : (bannedWarnOf ru idx r).countP
        (fun w => decide (w.kind = "category_unknown")) = 0 := by
      rw [List.countP_eq_zero]
      intro w hw
      rw [bannedWarnOf_kind w hw]
      decide
    have hd : (dateWarnsOf ru idx r).countP
        (fun w => decide (w.kind = "category_unknown")) = 0 := by
      rw [List.countP_eq_zero]
      intro w hw
      rw [dateWarnsOf_kind w hw]
      decide
    rw [hb, hd]
    simp [List.countP_cons]
  · unfold cleanRowOf
    rw [heff]

/-- C1 witness at the spec's own example configuration. -/
theorem claim_C1_witness :
    catEff ruFallback rowTravel = fbOf ruFallback ∧
    cleanRowOf ruFallback rowTravel = { rowTravel with category := fbOf ruFallback } ∧
    (perRowWarn ruFallback 2 rowTravel).countP
      (fun w => decide (w.kind = "category_unknown")) = 1 :=
  ⟨(claim_C1 ruFallback rfl (by decide) rowTravel (by decide) 2).2.2.2.1,
   (claim_C1 ruFallback rfl (by decide) rowTravel (by decide) 2).2.2.1,
   (claim_C1 ruFallback rfl (by decide) rowTravel (by decide) 2).2.1⟩

/-- C8: the `merchant_top` section of `make_summary` is a header row whose key
is `top_<top_n>` followed by the merchant totals sorted descending by summed
total with ties broken by first-encountered insertion order (the stable sort
the source performs equals the position-tagged sort the spec describes),
truncated to at most `top_n` entries. -/
theorem claim_C8 (rows : List ExpenseRowNorm) (top_n : Nat) (out : List SummaryEntry)
    (h : make_summary rows top_n = some out) :
    (∃ bw, byWeekdayOf rows = some bw ∧
      out = monthSection (byMonthOf rows) ++ categorySection (byCategoryOf rows) ++
        ({ type := "merchant_top", key := "top_" ++ toString top_n
           value := "total_amount" } ::
          ((merchantTopSpec (byMerchantOf rows)).take top_n).map (fun p =>
            { type := "merchant_top", key := p.1, value := toString p.2 })) ++
        weekdaySection bw ++ statsSection rows) ∧
    (sortOrd merchantLe (byMerchantOf rows)).Pairwise (fun a b => b.2 ≤ a.2) ∧
    ((sortOrd merchantLe (byMerchantOf rows)).take top_n).length ≤ top_n := by
  have htot : ∀ a b : String × Int, merchantLe a b || merchantLe b a := by
    intro a b
    rcases le_total a.2 b.2 with hle | hle <;> simp [merchantLe, hle]
  have htr : ∀ a b c : String × Int, merchantLe a b → merchantLe b c → merchantLe a c := by
    intro a b c h1 h2
    simp only [merchantLe, decide_eq_true_eq] at h1 h2 ⊢
    omega
  refine ⟨?_, ?_, List.length_take_le _ _⟩
  · unfold make_summary at h
    cases hbw : byWeekdayOf rows with
    | none => rw [hbw] at h; simp at h
    | some bw =>
      rw [hbw] at h
      rw [Option.map_some', Option.some_inj] at h
      refine ⟨bw, rfl, ?_⟩
      rw [← h]
      unfold merchantTopSection
      rw [merchantTopSpec_eq]
  · exact (pairwise_sortOrd htot htr _).imp (fun hab => by
      simpa [merchantLe] using hab)

/-- C8 witness: a run with tied totals, merchant `"B"` first encountered. -/
theorem claim_C8_witness :
    ∃ out, make_summary [rowTieB, rowTieA] 10 = some out ∧
      ((∃ bw, byWeekdayOf [rowTieB, rowTieA] = some bw ∧
        out = monthSection (byMonthOf [rowTieB, rowTieA]) ++
          categorySection (byCategoryOf [rowTieB, rowTieA]) ++
          ({ type := "merchant_top", key := "top_" ++ toString 10
             value := "total_amount" } ::
            ((merchantTopSpec (byMerchantOf [rowTieB, rowTieA])).take 10).map (fun p =>
              { type := "merchant_top", key := p.1, value := toString p.2 })) ++
          weekdaySection bw ++ statsSection [rowTieB, rowTieA]) ∧
      (sortOrd merchantLe (byMerchantOf [rowTieB, rowTieA])).Pairwise
        (fun a b => b.2 ≤ a.2) ∧
      ((sortOrd merchantLe (byMerchantOf [rowTieB, rowTieA])).take 10).length ≤ 10) := by
  have hs : (make_summary [rowTieB, rowTieA] 10).isSome = true := by decide
  obtain ⟨out, hout⟩ := Option.isSome_iff_exists.mp hs
  exact ⟨out, hout, claim_C8 [rowTieB, rowTieA] 10 out hout⟩

/-- C3: for two rows with the same (stripped date, stripped amount,
lower-cased stripped merchant) key, the later row is flagged with the
duplicate reason and lands in the error output, while the earlier row (when
it is the first occurrence of its key) is never flagged duplicate; and a row
registers its key into the seen set exactly when its three key fields are
non-blank, independent of any other validation failure. -/
theorem claim_C3 (pre mid post : List RawRow) (r1 r2 : RawRow)
    (hk : dupKeyOf r1 = dupKeyOf r2) (hok : keyOk r2 = true)
    (hfirst : ∀ r ∈ pre, dupKeyOf r ≠ dupKeyOf r1) :
    dupMsg ∈ rowReasons (dupSeen (dupSeen [] pre) (r1 :: mid)) r2 ∧
    issueRowOf (pre.length + mid.length + 3) r2
        (rowReasons (dupSeen (dupSeen [] pre) (r1 :: mid)) r2) ∈
      (check_rows (pre ++ r1 :: (mid ++ r2 :: post))).2 ∧
    dupMsg ∉ rowReasons (dupSeen [] pre) r1 ∧
    (rowReasons (dupSeen [] pre) r1 = [] →
      okRowOf (pre.length + 2) r1 ∈ (check_rows (pre ++ r1 :: (mid ++ r2 :: post))).1) ∧
    (rowReasons (dupSeen [] pre) r1 ≠ [] →
      issueRowOf (pre.length + 2) r1 (rowReasons (dupSeen [] pre) r1) ∈
        (check_rows (pre ++ r1 :: (mid ++ r2 :: post))).2) ∧
    (∀ (s : List DupKey) (xs : List RawRow) (k : DupKey),
      k ∈ dupSeen s xs ↔ k ∈ s ∨ ∃ x ∈ xs, keyOk x = true ∧ dupKeyOf x = k) := by
  have hok1 : keyOk r1 = true := by
    unfold keyOk
    rw [hk]
    exact hok
  have hmem2 : dupKeyOf r2 ∈ dupSeen (dupSeen [] pre) (r1 :: mid) := by
    rw [mem_dupSeen]
    exact Or.inr ⟨r1, List.mem_cons_self _ _, hok1, hk⟩
  have ha : dupMsg ∈ rowReasons (dupSeen (dupSeen [] pre) (r1 :: mid)) r2 :=
    dupMsg_mem_rowReasons.mpr ⟨hok, hmem2⟩
  have hnot1 : dupKeyOf r1 ∉ dupSeen [] pre := by
    rw [mem_dupSeen]
    rintro (h | ⟨x, hx, -, hkey⟩)
    · simp at h
    · exact hfirst x hx hkey
  have hc : dupMsg ∉ rowReasons (dupSeen [] pre) r1 := by
    rw [dupMsg_mem_rowReasons]
    rintro ⟨-, hmem⟩
    exact hnot1 hmem
  have hsplit : pre ++ r1 :: (mid ++ r2 :: post) = (pre ++ r1 :: mid) ++ (r2 :: post) := by
    rw [List.append_assoc, List.cons_append]
  have hseen : dupSeen [] (pre ++ r1 :: mid) = dupSeen (dupSeen [] pre) (r1 :: mid) :=
    List.foldl_append _ _ _ _
  have hlen : 2 + (pre ++ r1 :: mid).length = pre.length + mid.length + 3 := by
    simp [List.length_append]
    omega
  have hne2 : rowReasons (dupSeen (dupSeen [] pre) (r1 :: mid)) r2 ≠ [] := by
    intro he
    rw [he] at ha
    simp at ha
  have hcond2 : ¬ ((rowReasons (dupSeen (dupSeen [] pre) (r1 :: mid)) r2).isEmpty = true) := by
    rw [List.isEmpty_iff]
    exact hne2
  refine ⟨ha, ?_, hc, ?_, ?_, fun s xs k => mem_dupSeen xs s⟩
  · unfold check_rows
    rw [hsplit, checkRowsGo_append (pre ++ r1 :: mid) (r2 :: post) 2 []]
    refine List.mem_append_right _ ?_
    rw [hseen, hlen, checkRowsGo_cons, if_neg hcond2]
    exact List.mem_cons_self _ _
  · intro hre
    have hcond1 : (rowReasons (dupSeen [] pre) r1).isEmpty = true := by
      rw [List.isEmpty_iff]
      exact hre
    unfold check_rows
    rw [checkRowsGo_append pre (r1 :: (mid ++ r2 :: post)) 2 []]
    refine List.mem_append_right _ ?_
    rw [checkRowsGo_cons, if_pos hcond1]
    have h2p : 2 + pre.length = pre.length + 2 := by omega
    rw [h2p]
    exact List.mem_cons_self _ _
  · intro hre
    have hcond1 : ¬ ((rowReasons (dupSeen [] pre) r1).isEmpty = true) := by
      rw [List.isEmpty_iff]
      exact hre
    unfold check_rows
    rw [checkRowsGo_append pre (r1 :: (mid ++ r2 :: post)) 2 []]
    refine List.mem_append_right _ ?_
    rw [checkRowsGo_cons, if_neg hcond1]
    have h2p : 2 + pre.length = pre.length + 2 := by omega
    rw [h2p]
    exact List.mem_cons_self _ _

/-- C3 witness at the spec's example: `Acme` then `ACME`, same date/amount. -/
theorem claim_C3_witness :
    dupMsg ∈ rowReasons (dupSeen (dupSeen [] []) [rawAcme]) rawAcmeUpper ∧
    issueRowOf 3 rawAcmeUpper
        (rowReasons (dupSeen (dupSeen [] []) [rawAcme]) rawAcmeUpper) ∈
      (check_rows [rawAcme, rawAcmeUpper]).2 ∧
    dupMsg ∉ rowReasons (dupSeen [] []) rawAcme ∧
    okRowOf 2 rawAcme ∈ (check_rows [rawAcme, rawAcmeUpper]).1 := by
  have h := claim_C3 [] [] [] rawAcme rawAcmeUpper (by decide) (by decide) (by simp)
  exact ⟨h.1, h.2.1, h.2.2.1, h.2.2.2.1 (by decide)⟩

/-- C4: after all rows are processed, each configured limit is checked over
its accumulator in ascending key order, emitting exactly one warning of the
matching `limit_*` kind per entry whose total strictly exceeds the limit,
with empty row/merchant and the aggregate total as the amount; a category
absent from a per-category limit map is never checked. -/
theorem claim_C4 (rows : List ExpenseRowNorm) (ru : Rules) :
    (apply_rules rows ru).2 =
      rowWarns ru 2 rows ++ limitDailyWarns ru (dayTotalsOf rows) ++
        limitMonthlyWarns ru (monthTotalsOf rows) ++
        limitCatDailyWarns ru (dayCatOf ru rows) ++
        limitCatMonthlyWarns ru (monthCatOf ru rows) ∧
    (apply_rules rows ru).2.filter (fun w => decide (w.kind = "limit_daily_total")) =
      limitDailyWarns ru (dayTotalsOf rows) ∧
    (apply_rules rows ru).2.filter (fun w => decide (w.kind = "limit_monthly_total")) =
      limitMonthlyWarns ru (monthTotalsOf rows) ∧
    (apply_rules rows ru).2.filter (fun w => decide (w.kind = "limit_category_daily")) =
      limitCatDailyWarns ru (dayCatOf ru rows) ∧
    (apply_rules rows ru).2.filter (fun w => decide (w.kind = "limit_category_monthly")) =
      limitCatMonthlyWarns ru (monthCatOf ru rows) ∧
    (limitDailyWarns ru (dayTotalsOf rows)).Pairwise
      (fun w1 w2 => strLeB w1.date w2.date = true) ∧
    (limitMonthlyWarns ru (monthTotalsOf rows)).Pairwise
      (fun w1 w2 => strLeB w1.month w2.month = true) ∧
    (limitCatDailyWarns ru (dayCatOf ru rows)).Pairwise
      (fun w1 w2 => pairLeB (w1.date, w1.category) (w2.date, w2.category) = true) ∧
    (limitCatMonthlyWarns ru (monthCatOf ru rows)).Pairwise
      (fun w1 w2 => pairLeB (w1.month, w1.category) (w2.month, w2.category) = true) ∧
    (∀ L, ru.limits.daily_total = some L → ∀ d,
      (apply_rules rows ru).2.countP
          (fun w => decide (w.kind = "limit_daily_total") && decide (w.date = d)) =
        (match alookup d (dayTotalsOf rows) with
         | some t => if L < t then 1 else 0
         | none => 0)) ∧
    (∀ L, ru.limits.monthly_total = some L → ∀ mo,
      (apply_rules rows ru).2.countP
          (fun w => decide (w.kind = "limit_monthly_total") && decide (w.month = mo)) =
        (match alookup mo (monthTotalsOf rows) with
         | some t => if L < t then 1 else 0
         | none => 0)) ∧
    (∀ cm, ru.limits.category_daily = some cm → ∀ dd cc,
      (apply_rules rows ru).2.countP
          (fun w => decide (w.kind = "limit_category_daily") &&
            decide ((w.date, w.category) = (dd, cc))) =
        (match alookup (dd, cc) (dayCatOf ru rows) with
         | some t =>
           (match alookup cc cm with
            | some lv => if lv < t then 1 else 0
            | none => 0)
         | none => 0)) ∧
    (∀ cm, ru.limits.category_monthly = some cm → ∀ mo cc,
      (apply_rules rows ru).2.countP
          (fun w => decide (w.kind = "limit_category_monthly") &&
            decide ((w.month, w.category) = (mo, cc))) =
        (match alookup (mo, cc) (monthCatOf ru rows) with
         | some t =>
           (match alookup cc cm with
            | some lv => if lv < t then 1 else 0
            | none => 0)
         | none => 0)) ∧
    (∀ w ∈ limitDailyWarns ru (dayTotalsOf rows), w.row = "" ∧ w.merchant = "" ∧
      ∃ t, alookup w.date (dayTotalsOf rows) = some t ∧ w.amount = toString t) ∧
    (∀ w ∈ limitMonthlyWarns ru (monthTotalsOf rows), w.row = "" ∧ w.merchant = "" ∧
      ∃ t, alookup w.month (monthTotalsOf rows) = some t ∧ w.amount = toString t) ∧
    (∀ w ∈ limitCatDailyWarns ru (dayCatOf ru rows), w.row = "" ∧ w.merchant = "" ∧
      ∃ t, alookup (w.date, w.category) (dayCatOf ru rows) = some t ∧
        w.amount = toString t) ∧
    (∀ w ∈ limitCatMonthlyWarns ru (monthCatOf ru rows), w.row = "" ∧ w.merchant = "" ∧
      ∃ t, alookup (w.month, w.category) (monthCatOf ru rows) = some t ∧
        w.amount = toString t) := by
  have hanchor : (apply_rules rows ru).2 =
      rowWarns ru 2 rows ++ limitDailyWarns ru (dayTotalsOf rows) ++
        limitMonthlyWarns ru (monthTotalsOf rows) ++
        limitCatDailyWarns ru (dayCatOf ru rows) ++
        limitCatMonthlyWarns ru (monthCatOf ru rows) := by
    rw [apply_rules_eq]
  have hndD : ((dayTotalsOf rows).map Prod.fst).Nodup :=
    keys_nodup_foldl_updAdd (fun r : ExpenseRowNorm => r.date)
      (fun r : ExpenseRowNorm => r.amount) rows [] (by simp)
  have hndM : ((monthTotalsOf rows).map Prod.fst).Nodup :=
    keys_nodup_foldl_updAdd (fun r : ExpenseRowNorm => strTake 7 r.date)
      (fun r : ExpenseRowNorm => r.amount) rows [] (by simp)
  have hndCD : ((dayCatOf ru rows).map Prod.fst).Nodup :=
    keys_nodup_foldl_updAdd (fun r : ExpenseRowNorm => (r.date, catEff ru r))
      (fun r : ExpenseRowNorm => r.amount) rows [] (by simp)
  have hndCM : ((monthCatOf ru rows).map Prod.fst).Nodup :=
    keys_nodup_foldl_updAdd (fun r : ExpenseRowNorm => (strTake 7 r.date, catEff ru r))
      (fun r : ExpenseRowNorm => r.amount) rows [] (by simp)
  have hrowNil : ∀ (K : String), K ∉ rowKinds →
      (rowWarns ru 2 rows).filter (fun w => decide (w.kind = K)) = [] := by
    intro K hK
    rw [List.filter_eq_nil_iff]
    intro w hw
    simp only [decide_eq_true_eq]
    intro he
    exact hK (he ▸ mem_rowWarns_kind rows 2 w hw)
  have hfD : ∀ (K : String), K ≠ "limit_daily_total" →
      (limitDailyWarns ru (dayTotalsOf rows)).filter (fun w => decide (w.kind = K)) = [] := by
    intro K hK
    rw [List.filter_eq_nil_iff]
    intro w hw
    simp only [decide_eq_true_eq]
    rw [(mem_limitDailyWarns_fields hw).1]
    exact fun he => hK he.symm
  have hfM : ∀ (K : String), K ≠ "limit_monthly_total" →
      (limitMonthlyWarns ru (monthTotalsOf rows)).filter
        (fun w => decide (w.kind = K)) = [] := by
    intro K hK
    rw [List.filter_eq_nil_iff]
    intro w hw
    simp only [decide_eq_true_eq]
    rw [(mem_limitMonthlyWarns_fields hw).1]
    exact fun he => hK he.symm
  have hfCD : ∀ (K : String), K ≠ "limit_category_daily" →
      (limitCatDailyWarns ru (dayCatOf ru rows)).filter
        (fun w => decide (w.kind = K)) = [] := by
    intro K hK
    rw [List.filter_eq_nil_iff]
    intro w hw
    simp only [decide_eq_true_eq]
    rw [(mem_limitCatDailyWarns_fields hw).1]
    exact fun he => hK he.symm
  have hfCM : ∀ (K : String), K ≠ "limit_category_monthly" →
      (limitCatMonthlyWarns ru (monthCatOf ru rows)).filter
        (fun w => decide (w.kind = K)) = [] := by
    intro K hK
    rw [List.filter_eq_nil_iff]
    intro w hw
    simp only [decide_eq_true_eq]
    rw [(mem_limitCatMonthlyWarns_fields hw).1]
    exact fun he => hK he.symm
  have hfDself : (limitDailyWarns ru (dayTotalsOf rows)).filter
      (fun w => decide (w.kind = "limit_daily_total")) =
      limitDailyWarns ru (dayTotalsOf rows) := by
    rw [List.filter_eq_self]
    intro w hw
    simp [(mem_limitDailyWarns_fields hw).1]
  have hfMself : (limitMonthlyWarns ru (monthTotalsOf rows)).filter
      (fun w => decide (w.kind = "limit_monthly_total")) =
      limitMonthlyWarns ru (monthTotalsOf rows) := by
    rw [List.filter_eq_self]
    intro w hw
    simp [(mem_limitMonthlyWarns_fields hw).1]
  have hfCDself : (limitCatDailyWarns ru (dayCatOf ru rows)).filter
      (fun w => decide (w.kind = "limit_category_daily")) =
      limitCatDailyWarns ru (dayCatOf ru rows) := by
    rw [List.filter_eq_self]
    intro w hw
    simp [(mem_limitCatDailyWarns_fields hw).1]
  have hfCMself : (limitCatMonthlyWarns ru (monthCatOf ru rows)).filter
      (fun w => decide (w.kind = "limit_category_monthly")) =
      limitCatMonthlyWarns ru (monthCatOf ru rows) := by
    rw [List.filter_eq_self]
    intro w hw
    simp [(mem_limitCatMonthlyWarns_fields hw).1]
  refine ⟨hanchor, ?_, ?_, ?_, ?_,
    limitDailyWarns_sorted ru (dayTotalsOf rows),
    limitMonthlyWarns_sorted ru (monthTotalsOf rows),
    limitCatDailyWarns_sorted ru (dayCatOf ru rows),
    limitCatMonthlyWarns_sorted ru (monthCatOf ru rows),
    ?_, ?_, ?_, ?_, ?_, ?_, ?_, ?_⟩
  · rw [hanchor]
    simp only [List.filter_append]
    rw [hrowNil _ (by decide), hfDself, hfM _ (by decide), hfCD _ (by decide),
      hfCM _ (by decide)]
    simp
  · rw [hanchor]
    simp only [List.filter_append]
    rw [hrowNil _ (by decide), hfD _ (by decide), hfMself, hfCD _ (by decide),
      hfCM _ (by decide)]
    simp
  · rw [hanchor]
    simp only [List.filter_append]
    rw [hrowNil _ (by decide), hfD _ (by decide), hfM _ (by decide), hfCDself,
      hfCM _ (by decide)]
    simp
  · rw [hanchor]
    simp only [List.filter_append]
    rw [hrowNil _ (by decide), hfD _ (by decide), hfM _ (by decide), hfCD _ (by decide),
      hfCMself]
    simp
  · intro L hlim d
    rw [hanchor]
    simp only [List.countP_append]
    rw [countP_rowWarns_limit_zero rows 2 _ "limit_daily_total" (by decide) ?_,
      countP_limitDailyWarns hlim (dayTotalsOf rows) hndD d]
    · have hzM : (limitMonthlyWarns ru (monthTotalsOf rows)).countP
          (fun w => decide (w.kind = "limit_daily_total") && decide (w.date = d)) = 0 := by
        rw [List.countP_eq_zero]
        intro w hw
        simp [(mem_limitMonthlyWarns_fields hw).1]
      have hzCD : (limitCatDailyWarns ru (dayCatOf ru rows)).countP
          (fun w => decide (w.kind = "limit_daily_total") && decide (w.date = d)) = 0 := by
        rw [List.countP_eq_zero]
        intro w hw
        simp [(mem_limitCatDailyWarns_fields hw).1]
      have hzCM : (limitCatMonthlyWarns ru (monthCatOf ru rows)).countP
          (fun w => decide (w.kind = "limit_daily_total") && decide (w.date = d)) = 0 := by
        rw [List.countP_eq_zero]
        intro w hw
        simp [(mem_limitCatMonthlyWarns_fields hw).1]
      rw [hzM, hzCD, hzCM]
      omega
    · intro w hw
      have hw2 : decide (w.kind = "limit_daily_total") = true ∧
          decide (w.date = d) = true := by simpa using hw
      exact of_decide_eq_true hw2.1
  · intro L hlim mo
    rw [hanchor]
    simp only [List.countP_append]
    rw [countP_rowWarns_limit_zero rows 2 _ "limit_monthly_total" (by decide) ?_,
      countP_limitMonthlyWarns hlim (monthTotalsOf rows) hndM mo]
    · have hzD : (limitDailyWarns ru (dayTotalsOf rows)).countP
          (fun w => decide (w.kind = "limit_monthly_total") && decide (w.month = mo)) = 0 := by
        rw [List.countP_eq_zero]
        intro w hw
        simp [(mem_limitDailyWarns_fields hw).1]
      have hzCD : (limitCatDailyWarns ru (dayCatOf ru rows)).countP
          (fun w => decide (w.kind = "limit_monthly_total") && decide (w.month = mo)) = 0 := by
        rw [List.countP_eq_zero]
        intro w hw
        simp [(mem_limitCatDailyWarns_fields hw).1]
      have hzCM : (limitCatMonthlyWarns ru (monthCatOf ru rows)).countP
          (fun w => decide (w.kind = "limit_monthly_total") && decide (w.month = mo)) = 0 := by
        rw [List.countP_eq_zero]
        intro w hw
        simp [(mem_limitCatMonthlyWarns_fields hw).1]
      rw [hzD, hzCD, hzCM]
      omega
    · intro w hw
      have hw2 : decide (w.kind = "limit_monthly_total") = true ∧
          decide (w.month = mo) = true := by simpa using hw
      exact of_decide_eq_true hw2.1
  · intro cm hlim dd cc
    rw [hanchor]
    simp only [List.countP_append]
    rw [countP_rowWarns_limit_zero rows 2 _ "limit_category_daily" (by decide) ?_,
      countP_limitCatDailyWarns hlim (dayCatOf ru rows) hndCD dd cc]
    · have hzD : (limitDailyWarns ru (dayTotalsOf rows)).countP
          (fun w => decide (w.kind = "limit_category_daily") &&
            decide ((w.date, w.category) = (dd, cc))) = 0 := by
        rw [List.countP_eq_zero]
        intro w hw
        simp [(mem_limitDailyWarns_fields hw).1]
      have hzM : (limitMonthlyWarns ru (monthTotalsOf rows)).countP
          (fun w => decide (w.kind = "limit_category_daily") &&
            decide ((w.date, w.category) = (dd, cc))) = 0 := by
        rw [List.countP_eq_zero]
        intro w hw
        simp [(mem_limitMonthlyWarns_fields hw).1]
      have hzCM : (limitCatMonthlyWarns ru (monthCatOf ru rows)).countP
          (fun w => decide (w.kind = "limit_category_daily") &&
            decide ((w.date, w.category) = (dd, cc))) = 0 := by
        rw [List.countP_eq_zero]
        intro w hw
        simp [(mem_limitCatMonthlyWarns_fields hw).1]
      rw [hzD, hzM, hzCM]
      omega
    · intro w hw
      have hw2 : decide (w.kind = "limit_category_daily") = true ∧
          decide ((w.date, w.category) = (dd, cc)) = true := by simpa using hw
      exact of_decide_eq_true hw2.1
  · intro cm hlim mo cc
    rw [hanchor]
    simp only [List.countP_append]
    rw [countP_rowWarns_limit_zero rows 2 _ "limit_category_monthly" (by decide) ?_,
      countP_limitCatMonthlyWarns hlim (monthCatOf ru rows) hndCM mo cc]
    · have hzD : (limitDailyWarns ru (dayTotalsOf rows)).countP
          (fun w => decide (w.kind = "limit_category_monthly") &&
            decide ((w.month, w.category) = (mo, cc))) = 0 := by
        rw [List.countP_eq_zero]
        intro w hw
        simp [(mem_limitDailyWarns_fields hw).1]
      have hzM : (limitMonthlyWarns ru (monthTotalsOf rows)).countP
          (fun w => decide (w.kind = "limit_category_monthly") &&
            decide ((w.month, w.category) = (mo, cc))) = 0 := by
        rw [List.countP_eq_zero]
        intro w hw
        simp [(mem_limitMonthlyWarns_fields hw).1]
      have hzCD : (limitCatDailyWarns ru (dayCatOf ru rows)).countP
          (fun w => decide (w.kind = "limit_category_monthly") &&
            decide ((w.month, w.category) = (mo, cc))) = 0 := by
        rw [List.countP_eq_zero]
        intro w hw
        simp [(mem_limitCatDailyWarns_fields hw).1]
      rw [hzD, hzM, hzCD]
      omega
    · intro w hw
      have hw2 : decide (w.kind = "limit_category_monthly") = true ∧
          decide ((w.month, w.category) = (mo, cc)) = true := by simpa using hw
      exact of_decide_eq_true hw2.1
  · intro w hw
    obtain ⟨-, hrow, hmer, p, hp, hdate, hamt⟩ := mem_limitDailyWarns_fields hw
    refine ⟨hrow, hmer, p.2, ?_, hamt⟩
    rw [hdate]
    exact alookup_of_mem hndD hp
  · intro w hw
    obtain ⟨-, hrow, hmer, p, hp, hmo, hamt⟩ := mem_limitMonthlyWarns_fields hw
    refine ⟨hrow, hmer, p.2, ?_, hamt⟩
    rw [hmo]
    exact alookup_of_mem hndM hp
  · intro w hw
    obtain ⟨-, hrow, hmer, p, hp, hdate, hcatg, hamt⟩ := mem_limitCatDailyWarns_fields hw
    refine ⟨hrow, hmer, p.2, ?_, hamt⟩
    rw [hdate, hcatg, Prod.mk.eta]
    exact alookup_of_mem hndCD hp
  · intro w hw
    obtain ⟨-, hrow, hmer, p, hp, hmo, hcatg, hamt⟩ := mem_limitCatMonthlyWarns_fields hw
    refine ⟨hrow, hmer, p.2, ?_, hamt⟩
    rw [hmo, hcatg, Prod.mk.eta]
    exact alookup_of_mem hndCM hp

/-- C4 witness at the spec's 1000-limit example: two rows totalling 1200 on
one date yield exactly one `limit_daily_total` warning with amount `"1200"`
and empty row/merchant. -/
theorem claim_C4_witness :
    (apply_rules [rowFood, rowFood2] ruDaily1000).2.countP
        (fun w => decide (w.kind = "limit_daily_total") &&
          decide (w.date = "2026-01-10")) = 1 ∧
    limitDailyWarns ruDaily1000 (dayTotalsOf [rowFood, rowFood2]) =
      [{ kind := "limit_daily_total", row := "", date := "2026-01-10"
         month := "2026-01", category := "", merchant := "", amount := "1200"
         message := "日次合計が上限超え: 1200 > 1000" }] := by
  constructor
  · have hc := (claim_C4 [rowFood, rowFood2]
      ruDaily1000).2.2.2.2.2.2.2.2.2.1 1000 rfl "2026-01-10"
    rw [hc]
    decide
  · decide

end Expense
